import Mathlib

/-!
Verification development for the BBVA bank-statement parser
(finance_dashboard/parsers/bbva.py).

The Python source is shallowly embedded below.  Monetary values in the
source are Python floats; they are modelled here as exact rationals
(see the remarks at `parseDecimal`).  Python integers are modelled as
`Nat` or `Int` as appropriate; fallible code is modelled with
`Option`/`Except`.
-/

set_option allowUnsafeReducibility true
attribute [semireducible] Rat.mul Rat.add Rat.sub Rat.inv Rat.div

/-- Membership in the Python regex class `\s` restricted to ASCII
(space, tab, newline, carriage return, vertical tab, form feed).
Statement texts are ASCII in the relevant places. -/
def isWs (c : Char) : Bool :=
  c = ' ' || c = '\t' || c = '\n' || c = '\r' || c = Char.ofNat 11 || c = Char.ofNat 12

/-- Python `str.strip()` on ASCII whitespace. -/
def pyStrip (s : String) : String :=
  String.mk (((s.toList.dropWhile isWs).reverse.dropWhile isWs).reverse)

/-- Python `str.upper()`; the statement keywords are ASCII so ASCII
uppercasing is faithful for every containment test performed by the
source. -/
def asciiUpper (s : String) : String :=
  String.mk (s.toList.map Char.toUpper)

/-- Whether the first list starts the second one. -/
def leadsList : List Char → List Char → Bool
  | [], _ => true
  | _ :: _, [] => false
  | a :: as, b :: bs => a == b && leadsList as bs

/-- Whether the first list occurs contiguously inside the second one. -/
def occursIn (needle : List Char) : List Char → Bool
  | [] => needle.isEmpty
  | c :: cs => leadsList needle (c :: cs) || occursIn needle cs

/-- Python `needle in hay` on strings. -/
def containsSub (needle hay : String) : Bool :=
  occursIn needle.toList hay.toList

/-- Python `str.split(sep)` for a one-character separator. -/
def splitOnChar (sep : Char) : List Char → List (List Char)
  | [] => [[]]
  | c :: cs =>
    if c = sep then [] :: splitOnChar sep cs
    else
      match splitOnChar sep cs with
      | [] => [[c]]
      | g :: gs => (c :: g) :: gs

/-- Value of a list of ASCII digit characters, most significant first
(the behaviour of Python `int` on a digit string). -/
def natVal (cs : List Char) : ℕ :=
  cs.foldl (fun a c => a * 10 + (c.toNat - 48)) 0

/-- Python `int(s)` restricted to the digit-string inputs produced by the
regexes of the source (`int` raises on anything that is not a numeral). -/
def parseNatDigits (cs : List Char) : Option ℕ :=
  if cs.isEmpty then none
  else if cs.all Char.isDigit then some (natVal cs) else none

/-- Proleptic Gregorian leap year, as used by Python `datetime.date`. -/
def isLeap (y : ℕ) : Bool :=
  y % 4 = 0 && (y % 100 ≠ 0 || y % 400 = 0)

/-- Length of a month, as validated by the `datetime.date` constructor. -/
def daysInMonth (y m : ℕ) : ℕ :=
  if m = 2 then (if isLeap y then 29 else 28)
  else if m = 4 ∨ m = 6 ∨ m = 9 ∨ m = 11 then 30
  else 31

/-- Model of `datetime.date`: a year/month/day triple.  Only values
accepted by the `datetime.date` constructor are ever produced (see
`mkDate`). -/
structure Date where
  year : ℕ
  month : ℕ
  day : ℕ
deriving DecidableEq

/-- The validity check performed by the `datetime.date` constructor
(MINYEAR = 1, MAXYEAR = 9999). -/
def ValidDate (y m d : ℕ) : Prop :=
  1 ≤ y ∧ y ≤ 9999 ∧ 1 ≤ m ∧ m ≤ 12 ∧ 1 ≤ d ∧ d ≤ daysInMonth y m

instance (y m d : ℕ) : Decidable (ValidDate y m d) := by
  unfold ValidDate; infer_instance

/-- The `datetime.date` constructor: returns the date or raises. -/
def mkDate (y m d : ℕ) : Except String Date :=
  if ValidDate y m d then Except.ok ⟨y, m, d⟩
  else Except.error ("day is out of range for month")

/-- Lexicographic order on dates (the order of Python `datetime.date`). -/
def dateLt (a b : Date) : Prop :=
  a.year < b.year ∨ (a.year = b.year ∧
    (a.month < b.month ∨ (a.month = b.month ∧ a.day < b.day)))

instance (a b : Date) : Decidable (dateLt a b) := by
  unfold dateLt; infer_instance

def dateLe (a b : Date) : Prop := dateLt a b ∨ a = b

instance (a b : Date) : Decidable (dateLe a b) := by
  unfold dateLe; infer_instance

/-- The fixed month table `MONTHS` of the source. -/
def MONTHS : List (String × ℕ) :=
  [("ENE", 1), ("FEB", 2), ("MAR", 3), ("ABR", 4), ("MAY", 5), ("JUN", 6),
   ("JUL", 7), ("AGO", 8), ("SEP", 9), ("OCT", 10), ("NOV", 11), ("DIC", 12)]

/-- Python `MONTHS.get(k)`. -/
def monthsGet (k : String) : Option ℕ :=
  (MONTHS.find? (fun p => p.1 == k)).map (fun p => p.2)

/-- `_parse_dd_mmm` of the source: converts a token such as "03/DIC" to a
date, choosing the end year of the statement period when the month is
strictly before the period's start month.  `dd_mmm.split("/")` must give
exactly two parts, the month must be in `MONTHS` (after uppercasing) and
the day string must be a numeral, otherwise Python raises. -/
def _parse_dd_mmm (dd_mmm : String) (start_year end_year start_month : ℕ) :
    Except String Date :=
  match splitOnChar '/' dd_mmm.toList with
  | [ddCs, mmmCs] =>
    match monthsGet (asciiUpper (String.mk mmmCs)) with
    | none => Except.error ("Mes no reconocido: " ++ dd_mmm)
    | some m =>
      match parseNatDigits ddCs with
      | none => Except.error ("invalid literal for int")
      | some d =>
        let year := if m < start_month then end_year else start_year
        mkDate year m d
  | _ => Except.error ("not enough values to unpack")

/-- Literal matcher: consume the expected characters or fail (a regex
literal such as `Periodo` or `DEL`). -/
def matchLit : List Char → List Char → Option (List Char)
  | [], cs => some cs
  | _ :: _, [] => none
  | p :: ps, c :: cs => if c = p then matchLit ps cs else none

/-- Regex `\s+`: at least one whitespace character, consumed greedily.
Every use in the source is followed by a non-whitespace literal or
class, so greedy consumption is exact. -/
def dropWs1 : List Char → Option (List Char)
  | [] => none
  | c :: cs => if isWs c then some (cs.dropWhile isWs) else none

/-- Regex `\d{2}/\d{2}/\d{4}` (a full date token); returns the ten
matched characters and the rest. -/
def matchDateTok : List Char → Option (List Char × List Char)
  | d1 :: d2 :: s1 :: m1 :: m2 :: s2 :: y1 :: y2 :: y3 :: y4 :: rest =>
    if d1.isDigit && d2.isDigit && s1 = '/' && m1.isDigit && m2.isDigit &&
       s2 = '/' && y1.isDigit && y2.isDigit && y3.isDigit && y4.isDigit
    then some ([d1, d2, s1, m1, m2, s2, y1, y2, y3, y4], rest)
    else none
  | _ => none

/-- Attempt, at the current position, the pattern
`Periodo\s+DEL\s+(\d{2}/\d{2}/\d{4})\s+AL\s+(\d{2}/\d{2}/\d{4})`
used by `_parse_period`; returns the two captured groups. -/
def matchPeriodAt (cs : List Char) : Option (List Char × List Char) :=
  match matchLit ("Periodo").toList cs with
  | none => none
  | some cs1 =>
    match dropWs1 cs1 with
    | none => none
    | some cs2 =>
      match matchLit ("DEL").toList cs2 with
      | none => none
      | some cs3 =>
        match dropWs1 cs3 with
        | none => none
        | some cs4 =>
          match matchDateTok cs4 with
          | none => none
          | some (g1, cs5) =>
            match dropWs1 cs5 with
            | none => none
            | some cs6 =>
              match matchLit ("AL").toList cs6 with
              | none => none
              | some cs7 =>
                match dropWs1 cs7 with
                | none => none
                | some cs8 =>
                  match matchDateTok cs8 with
                  | none => none
                  | some (g2, _) => some (g1, g2)

/-- Model of `re.search`: try the matcher at every position from the
left, returning the first success (Python's leftmost-match rule). -/
def searchOpt {α : Type} (f : List Char → Option α) : List Char → Option α
  | [] => f []
  | c :: cs =>
    match f (c :: cs) with
    | some r => some r
    | none => searchOpt f cs

/-- Python `datetime.strptime(s, "%d/%m/%Y").date()` on a ten-character
`dd/mm/yyyy` token: numeric conversion plus calendar validation. -/
def strptimeDMY (cs : List Char) : Except String Date :=
  match cs with
  | [d1, d2, _, m1, m2, _, y1, y2, y3, y4] =>
    match parseNatDigits [d1, d2], parseNatDigits [m1, m2],
          parseNatDigits [y1, y2, y3, y4] with
    | some d, some m, some y => mkDate y m d
    | _, _, _ => Except.error ("time data does not match format")
  | _ => Except.error ("time data does not match format")

/-- `_parse_period` of the source: search the text for
`Periodo DEL <date> AL <date>` and convert both groups; raises when
the pattern is absent. -/
def _parse_period (text : String) : Except String (Date × Date) :=
  match searchOpt matchPeriodAt text.toList with
  | none => Except.error ("No pude encontrar el periodo del estado de cuenta.")
  | some (g1, g2) =>
    match strptimeDMY g1 with
    | Except.error e => Except.error e
    | Except.ok dstart =>
      match strptimeDMY g2 with
      | Except.error e => Except.error e
      | Except.ok dend => Except.ok (dstart, dend)

/-- Regex `(?:,\d{3})*`, consumed greedily: returns the consumed
characters and the rest.  (Greedy consumption is exact here because
after dropping a `,ddd` group the next character is `,`, never the `.`
the pattern requires, so backtracking into the star cannot succeed.) -/
def matchGroups3 : List Char → List Char × List Char
  | ',' :: a :: b :: c :: rest =>
    if a.isDigit && b.isDigit && c.isDigit then
      let (g, r) := matchGroups3 rest
      (',' :: a :: b :: c :: g, r)
    else ([], ',' :: a :: b :: c :: rest)
  | cs => ([], cs)

/-- Regex `\.\d{2}`. -/
def matchDotDD : List Char → Option (List Char × List Char)
  | '.' :: a :: b :: rest =>
    if a.isDigit && b.isDigit then some (['.', a, b], rest) else none
  | _ => none

/-- One alternative of `\d{1,3}(?:,\d{3})*\.\d{2}` with the leading
digit group of the given exact length. -/
def moneyFrom (cs : List Char) (firstLen : ℕ) : Option (List Char × List Char) :=
  let ds := cs.take firstLen
  if ds.length = firstLen && ds.all Char.isDigit then
    let (g, rest2) := matchGroups3 (cs.drop firstLen)
    match matchDotDD rest2 with
    | some (dd, rest3) => some (ds ++ g ++ dd, rest3)
    | none => none
  else none

/-- `MONEY_RE` = `(\d{1,3}(?:,\d{3})*\.\d{2})` attempted at the current
position; the leading `\d{1,3}` is greedy, so lengths 3, 2, 1 are tried
in that order (the regex backtracking order). -/
def matchMoneyAt (cs : List Char) : Option (List Char × List Char) :=
  match moneyFrom cs 3 with
  | some r => some r
  | none =>
    match moneyFrom cs 2 with
    | some r => some r
    | none => moneyFrom cs 1

/-- `_mxn_to_float` of the source: strip thousands separators and read
the decimal numeral.  The source stores the result as a Python float;
it is modelled as the exact rational value of the numeral, which is the
value the numeral denotes (see the `C4` discussion: the float
representation itself is not modelled). -/
def parseDecimal (cs : List Char) : ℚ :=
  let cs' := cs.filter (fun c => c ≠ ',')
  match splitOnChar '.' cs' with
  | [ip, fp] => (natVal ip : ℚ) + (natVal fp : ℚ) / ((10 : ℚ) ^ fp.length)
  | [ip] => (natVal ip : ℚ)
  | _ => 0

/-- `StatementTotals` of the source.  The two totals are Python floats
parsed by `_mxn_to_float` (modelled as exact rationals); the two counts
are Python ints parsed from `\d+` groups. -/
structure StatementTotals where
  total_cargos : ℚ
  count_cargos : ℕ
  total_abonos : ℚ
  count_abonos : ℕ
deriving DecidableEq

/-- The head of the CARGOS totals pattern:
`TOTAL\s+IMPORTE\s+CARGOS\s+(money)`, tried at the current position. -/
def matchTotHeadAt (word : List Char) (cs : List Char) :
    Option (List Char × List Char) := do
  let cs ← matchLit ("TOTAL").toList cs
  let cs ← dropWs1 cs
  let cs ← matchLit ("IMPORTE").toList cs
  let cs ← dropWs1 cs
  let cs ← matchLit word cs
  let cs ← dropWs1 cs
  matchMoneyAt cs

/-- The tail of a totals pattern:
`TOTAL\s+MOVIMIENTOS\s+<word>\s+(\d+)`, tried at the current position. -/
def matchMovAt (word : List Char) (cs : List Char) : Option ℕ := do
  let cs ← matchLit ("TOTAL").toList cs
  let cs ← dropWs1 cs
  let cs ← matchLit ("MOVIMIENTOS").toList cs
  let cs ← dropWs1 cs
  let cs ← matchLit word cs
  let cs ← dropWs1 cs
  let ds := cs.takeWhile Char.isDigit
  if ds.isEmpty then none else some (natVal ds)

/-- One `re.search(..., re.DOTALL)` of `_parse_totals`: the head pattern
at the leftmost feasible position, then `.*?` lazily up to the first
position where the tail pattern matches. -/
def totalsSearch (word : List Char) (cs : List Char) : Option (ℚ × ℕ) :=
  searchOpt
    (fun suf => do
      let (money, rest) ← matchTotHeadAt word suf
      let n ← searchOpt (fun suf2 => matchMovAt word suf2) rest
      some (parseDecimal money, n))
    cs

/-- `_parse_totals` of the source: both the CARGOS and the ABONOS
patterns must match, otherwise `None`. -/
def _parse_totals (text : String) : Option StatementTotals :=
  match totalsSearch ("CARGOS").toList text.toList,
        totalsSearch ("ABONOS").toList text.toList with
  | some (tc, cc), some (ta, ca) =>
    some { total_cargos := tc, count_cargos := cc,
           total_abonos := ta, count_abonos := ca }
  | _, _ => none

/-- `_seed_credit` of the source: descriptions that are forced credits. -/
def _seed_credit (description : String) : Bool :=
  let u := asciiUpper description
  containsSub ("PAGO DE NOMINA") u || containsSub ("SPEI RECIBIDO") u

/-- `_credit_score` of the source: the additive plausibility score. -/
def _credit_score (description : String) : ℤ :=
  let u := asciiUpper description
  let score : ℤ := 0
  let score := if containsSub ("NOMINA") u then score + 10 else score
  let score := if containsSub ("RECIB") u then score + 8 else score
  let score := if containsSub ("ABONO") u || containsSub ("DEPOS") u then score + 4 else score
  let score := if containsSub ("ENVIADO") u then score - 12 else score
  let score := if containsSub ("RETIRO") u then score - 8 else score
  let score := if containsSub ("PAGO TARJETA") u then score - 6 else score
  let score := if [("OXXO" : String), "STARBUCKS", "AMAZON", "STRIPE", "GOOGLE",
                   "WEB TICKETS", "NAYAX"].any (fun k => containsSub k u)
               then score - 4 else score
  let score := if containsSub ("PAGO CUENTA DE TERCERO") u then score + 1 else score
  score

/-- A transaction record as assembled by `parse_bbva_statement` (the
per-row dict of the DataFrame).  `amount` is a Python float in the
source, modelled as the exact rational the parsed numeral denotes. -/
structure TxRec where
  date : Date
  liq_date : Date
  description : String
  amount : ℚ
  direction : String
  source : String
deriving DecidableEq

/-- A solver candidate: the DataFrame index of a non-seed row together
with its entries in the `cents` and `scores` dicts of
`_reconcile_credits`. -/
structure CandEntry where
  idx : ℕ
  cents : ℤ
  score : ℤ
deriving DecidableEq

/-- Sum of the `cents` of a list of candidates. -/
def centsSum (l : List CandEntry) : ℤ := (l.map CandEntry.cents).sum

/-- Sum of the `score` of a list of candidates. -/
def scoreSum (l : List CandEntry) : ℤ := (l.map CandEntry.score).sum

/-- Descending order on integers, used for `sorted(..., reverse=True)`
inside the solver bounds.  On integers any correct sort produces the
same list, so a simple insertion sort is a faithful model. -/
def geZ (a b : ℤ) : Prop := b ≤ a

instance : DecidableRel geZ := fun a b => inferInstanceAs (Decidable (b ≤ a))

instance : IsTotal ℤ geZ := ⟨fun a b => le_total b a⟩

instance : IsTrans ℤ geZ := ⟨fun _ _ _ h1 h2 => le_trans h2 h1⟩

/-- `sum(sorted(remaining, reverse=True)[:k])`: best-case achievable sum
with `k` of the remaining cent amounts. -/
def topkSum (l : List ℤ) (k : ℕ) : ℤ := ((List.insertionSort geZ l).take k).sum

/-- `sum(sorted(remaining)[:k])`: worst-case achievable sum with `k` of
the remaining cent amounts. -/
def botkSum (l : List ℤ) (k : ℕ) : ℤ :=
  ((List.insertionSort (fun a b : ℤ => a ≤ b) l).take k).sum

/-- The resolution of the take/skip branches of `best`: the skip result
replaces the take result only when its score is strictly greater
(`sc > best_score` in the source), and a missing branch loses. -/
def combineBest :
    Option (ℤ × List CandEntry) → Option (ℤ × List CandEntry) →
    Option (ℤ × List CandEntry)
  | none, none => none
  | some t, none => some t
  | none, some s => some s
  | some (ts, tl), some (ss, sl) => if ss > ts then some (ss, sl) else some (ts, tl)

/-- The recursive search `best(pos, k, s)` of `_reconcile_credits`,
with the candidate suffix `candidates[pos:]` passed as a list.  The
`lru_cache` memoisation of the source does not change the value of this
pure function and is not modelled.  Returns the chosen score and chosen
candidates, or `none`. -/
def best : List CandEntry → ℕ → ℤ → Option (ℤ × List CandEntry)
  | _, 0, s => if s = 0 then some (0, []) else none
  | [], _ + 1, _ => none
  | c :: rest, k + 1, s =>
    if (c :: rest).length < k + 1 then none
    else if topkSum ((c :: rest).map CandEntry.cents) (k + 1) < s then none
    else if botkSum ((c :: rest).map CandEntry.cents) (k + 1) > s then none
    else
      combineBest
        (if c.cents ≤ s then
          (best rest k (s - c.cents)).map (fun p => (p.1 + c.score, c :: p.2))
         else none)
        (best rest (k + 1) s)

/-- Key order for `candidates.sort(key=lambda i: (scores[i], cents[i]),
reverse=True)`: descending lexicographic order on (score, cents).  Ties
keep the earlier candidate first, which reproduces the stability of the
Python sort because `insertionSort` inserts each element before the
first later element it relates to. -/
def keyGe (a b : CandEntry) : Prop :=
  b.score < a.score ∨ (a.score = b.score ∧ b.cents ≤ a.cents)

instance : DecidableRel keyGe := fun a b => by
  unfold keyGe; infer_instance

/-- Python `round` applied to an exact rational: round half to even
(banker's rounding), as `round` does on Python numbers.  For the
cent-exact inputs the reconciliation handles, the argument is an
integer and no rounding occurs at all. -/
def pyRound (q : ℚ) : ℤ :=
  let n := q.num
  let d := (q.den : ℤ)
  let f := Int.fdiv n d
  let r := n - f * d
  if 2 * r < d then f
  else if 2 * r > d then f + 1
  else if f % 2 = 0 then f else f + 1

/-- `int(round(x * 100))` of the source, applied to a modelled float.
For the cent-exact decimals produced by statement parsing the product
is an integer and no rounding occurs. -/
def centsOf (q : ℚ) : ℤ := pyRound (q * 100)

/-- `df.index` paired with the rows: the enumerated DataFrame. -/
def indexedRecs (df : List TxRec) : List (ℕ × TxRec) := df.enum

/-- Whether an enumerated row is a forced seed credit
(`df["is_seed_credit"]`). -/
def seedP (p : ℕ × TxRec) : Bool := _seed_credit p.2.description

/-- `seed_idx` of `_reconcile_credits`. -/
def seedIdx (df : List TxRec) : List ℕ :=
  ((indexedRecs df).filter seedP).map (fun p => p.1)

/-- `seed_sum` of `_reconcile_credits`: the float sum of the seed
amounts, times 100, rounded. -/
def seedSum (df : List TxRec) : ℤ :=
  pyRound (((((indexedRecs df).filter seedP).map (fun p => p.2.amount)).sum) * 100)

/-- `target_sum` of `_reconcile_credits`. -/
def targetSum (totals : StatementTotals) : ℤ := centsOf totals.total_abonos

/-- `remaining_k` of `_reconcile_credits` (may be negative). -/
def remainingK (df : List TxRec) (totals : StatementTotals) : ℤ :=
  (totals.count_abonos : ℤ) - (seedIdx df).length

/-- `remaining_sum` of `_reconcile_credits`. -/
def remainingSum (df : List TxRec) (totals : StatementTotals) : ℤ :=
  targetSum totals - seedSum df

/-- The solver view of one non-seed row: its index, its entry in the
`cents` dict and its entry in the `scores` dict. -/
def mkEntry (p : ℕ × TxRec) : CandEntry :=
  ⟨p.1, centsOf p.2.amount, _credit_score p.2.description⟩

/-- The candidate pool of `_reconcile_credits`: the non-seed rows, in
index order, with their cent amounts and plausibility scores. -/
def candEntries (df : List TxRec) : List CandEntry :=
  ((indexedRecs df).filter (fun p => ¬ seedP p)).map mkEntry

/-- The candidate pool sorted by (score, cents) descending. -/
def sortedCands (df : List TxRec) : List CandEntry :=
  List.insertionSort keyGe (candEntries df)

/-- Set the `direction` column of one row. -/
def setDir (r : TxRec) (d : String) : TxRec := { r with direction := d }

/-- Assign `direction` by membership of the row index in the credit
set (the final `df["direction"] = df.index.map(...)` of the source). -/
def assignDirs (df : List TxRec) (creditSet : List ℕ) : List TxRec :=
  (indexedRecs df).map
    (fun p => setDir p.2 (if p.1 ∈ creditSet then "credit" else "debit"))

/-- `_reconcile_credits` of the source.  The returned DataFrame also
carries the derived boolean column `is_seed_credit`, which equals
`_seed_credit` of the description and is therefore not duplicated in
the model. -/
def _reconcile_credits (df : List TxRec) (totals : StatementTotals) : List TxRec :=
  if remainingK df totals ≤ 0 then
    assignDirs df (seedIdx df)
  else
    let sol : List ℕ :=
      match best (sortedCands df) (remainingK df totals).toNat
            (remainingSum df totals) with
      | some (_, sel) => sel.map CandEntry.idx
      | none => []
    assignDirs df (seedIdx df ++ sol)

/-- A transaction under assembly (`current` in the source). -/
structure RawTx where
  op_raw : String
  liq_raw : String
  line1 : String
  cont : List String
deriving DecidableEq

/-- Regex `[A-Z]` (uppercase ASCII letter). -/
def isUpperAZ (c : Char) : Bool := 'A' ≤ c && c ≤ 'Z'

/-- `start_re` = `^(\d{2}/[A-Z]{3})\s+(\d{2}/[A-Z]{3})\s+(.*)$`: a
transaction-start line; returns the two date tokens and the rest of
the line. -/
def matchStart (ln : String) : Option (String × String × String) :=
  match ln.toList with
  | d1 :: d2 :: s1 :: a1 :: a2 :: a3 :: rest =>
    if d1.isDigit && d2.isDigit && s1 = '/' && isUpperAZ a1 && isUpperAZ a2 &&
       isUpperAZ a3 then
      match dropWs1 rest with
      | none => none
      | some rest2 =>
        match rest2 with
        | e1 :: e2 :: s2 :: b1 :: b2 :: b3 :: rest3 =>
          if e1.isDigit && e2.isDigit && s2 = '/' && isUpperAZ b1 &&
             isUpperAZ b2 && isUpperAZ b3 then
            match dropWs1 rest3 with
            | none => none
            | some rest4 =>
              some (String.mk [d1, d2, s1, a1, a2, a3],
                    String.mk [e1, e2, s2, b1, b2, b3],
                    String.mk rest4)
          else none
        | _ => none
    else none
  | _ => none

/-- `stop_re` = `^Total de Movimientos\b`. -/
def isWordChar (c : Char) : Bool := c.isAlphanum || c = '_'

/-- Whether `ln` starts with `lit` followed by a regex word boundary. -/
def matchLitWordB (lit : List Char) (ln : List Char) : Bool :=
  match matchLit lit ln with
  | none => false
  | some [] => true
  | some (c :: _) => ¬ isWordChar c

def stopMatch (ln : String) : Bool :=
  matchLitWordB ("Total de Movimientos").toList ln.toList

/-- `noise_re`: running headers and page metadata, anchored at the start
of the line, each alternative followed by a word boundary.  (The word
boundary is modelled over ASCII word characters; the characters that
follow these headers in statements are ASCII.) -/
def noiseMatch (ln : String) : Bool :=
  [("FECHA SALDO" : String), "OPER LIQ", "PAGINA", "No. de Cuenta",
   "No. de Cliente", "Estado de Cuenta", "Libretón", "BBVA MEXICO",
   "Av. Paseo", "La GAT Real"].any
    (fun alt => matchLitWordB alt.toList ln.toList)

/-- The record-assembly loop of `parse_bbva_statement` (step 4): stop on
the stop line, drop noise lines, open a new record on a start line
(emitting the previous one), append any other line to the open record,
and emit the open record at the end of input. -/
def assembleLoop : List String → Option RawTx → List RawTx → List RawTx
  | [], none, txs => txs
  | [], some cur, txs => txs ++ [cur]
  | ln :: rest, cur, txs =>
    if stopMatch ln then
      match cur with
      | some c => txs ++ [c]
      | none => txs
    else if noiseMatch ln then assembleLoop rest cur txs
    else
      match matchStart ln with
      | some (op, liq, l1) =>
        assembleLoop rest (some ⟨op, liq, l1, []⟩)
          (match cur with
           | some c => txs ++ [c]
           | none => txs)
      | none =>
        match cur with
        | some c => assembleLoop rest (some { c with cont := c.cont ++ [ln] }) txs
        | none => assembleLoop rest none txs

/-- Two-digit decimal rendering (`%02d`). -/
def two (n : ℕ) : List Char := [Nat.digitChar (n / 10 % 10), Nat.digitChar (n % 10)]

/-- Four-digit decimal rendering (`%04d`). -/
def four (n : ℕ) : List Char :=
  [Nat.digitChar (n / 1000 % 10), Nat.digitChar (n / 100 % 10),
   Nat.digitChar (n / 10 % 10), Nat.digitChar (n % 10)]

/-- `date.isoformat()` for the four-digit years of statements. -/
def isoDate (d : Date) : String :=
  String.mk (four d.year ++ '-' :: two d.month ++ '-' :: two d.day)

/-- The `source` tag `f"bbva_pdf_{start}_{end}"`. -/
def srcTag (dstart dend : Date) : String :=
  "bbva_pdf_" ++ isoDate dstart ++ "_" ++ isoDate dend

/-- Step 5 of `parse_bbva_statement` for one assembled transaction:
resolve both short dates, take the first money token of the first line
(defaulting to 0.0), join the description and classify seeds. -/
def buildRecord (start_year end_year start_month : ℕ) (src : String)
    (tx : RawTx) : Except String TxRec :=
  match _parse_dd_mmm tx.op_raw start_year end_year start_month with
  | Except.error e => Except.error e
  | Except.ok op_date =>
    match _parse_dd_mmm tx.liq_raw start_year end_year start_month with
    | Except.error e => Except.error e
    | Except.ok liq_date =>
      let amount : ℚ :=
        match searchOpt matchMoneyAt tx.line1.toList with
        | some (money, _) => parseDecimal money
        | none => 0
      let description := pyStrip (String.intercalate (" ") (tx.line1 :: tx.cont))
      Except.ok
        { date := op_date, liq_date := liq_date, description := description,
          amount := amount,
          direction := if _seed_credit description then "credit" else "debit",
          source := src }

/-- The section anchor line. -/
def anchorLine : String := "Detalle de Movimientos Realizados"

/-- Step 4 line preparation: split each page on newlines, strip each
line and keep the non-empty ones.  (Python `splitlines` also splits on
rarer control characters; statement text uses newlines.) -/
def stmtLines (pages_text : List String) : List String :=
  ((pages_text.map
      (fun t => (splitOnChar '\n' t.toList).map (fun cs => pyStrip (String.mk cs)))).flatten).filter
    (fun l => decide (l ≠ ""))

/-- `lines.index("Detalle de Movimientos Realizados")` and the slice
`lines[idx + 1:]`; `none` models the ValueError branch. -/
def afterAnchor : List String → Option (List String)
  | [] => none
  | l :: ls => if l = anchorLine then some ls else afterAnchor ls

/-- Ascending (date, amount-descending) order used by
`df.sort_values(["date", "amount"], ascending=[True, False])`.  The
pandas sort is not stable for its default algorithm, so only the key
order is specified; ties are placed deterministically by the model. -/
def recLe (a b : TxRec) : Prop :=
  dateLt a.date b.date ∨ (a.date = b.date ∧ b.amount ≤ a.amount)

instance : DecidableRel recLe := fun a b => by
  unfold recLe; infer_instance

/-- Step 5 of `parse_bbva_statement` over the whole transaction list:
build each record in order, propagating the first raised exception
(the behaviour of the Python `for` loop). -/
def buildRecords (sy ey sm : ℕ) (src : String) :
    List RawTx → Except String (List TxRec)
  | [] => Except.ok []
  | tx :: rest =>
    match buildRecord sy ey sm src tx with
    | Except.error e => Except.error e
    | Except.ok r =>
      match buildRecords sy ey sm src rest with
      | Except.error e => Except.error e
      | Except.ok rs => Except.ok (r :: rs)

/-- `parse_bbva_statement` of the source, starting from the per-page
text blocks produced by the external extraction collaborator
(pdfplumber).  `pd.DataFrame(records).sort_values(...)` raises a
`KeyError` when `records` is empty, because the empty frame has no
`date`/`amount` columns; that raise is modelled by the `.error`
branch. -/
def parse_bbva_statement (pages_text : List String) :
    Except String (List TxRec) :=
  match _parse_period (String.intercalate ("\n") pages_text) with
  | Except.error e => Except.error e
  | Except.ok (dstart, dend) =>
    match afterAnchor (stmtLines pages_text) with
    | none =>
      Except.error ("No encontre la seccion Detalle de Movimientos Realizados.")
    | some sec =>
      match buildRecords dstart.year dend.year dstart.month
          (srcTag dstart dend) (assembleLoop sec none []) with
      | Except.error e => Except.error e
      | Except.ok records =>
        if records.isEmpty then
          Except.error ("KeyError: date")
        else
          match _parse_totals (String.intercalate ("\n") pages_text) with
          | some t => Except.ok (_reconcile_credits (List.insertionSort recLe records) t)
          | none => Except.ok (List.insertionSort recLe records)

open List

/-- For a list whose elements are all at most `a`, extending a taken
prefix by one element adds at most `a` to its sum. -/
theorem sum_take_succ_le (a : ℤ) :
    ∀ (l : List ℤ) (n : ℕ), (∀ x ∈ l, x ≤ a) → n + 1 ≤ l.length →
      (l.take (n + 1)).sum ≤ a + (l.take n).sum := by
  intro l
  induction l with
  | nil => intro n _ hlen; simp at hlen
  | cons b l' ih =>
    intro n hall hlen
    cases n with
    | zero =>
      simpa using hall b (List.mem_cons_self b l')
    | succ m =>
      have hb : (b :: l').take (m + 2) = b :: l'.take (m + 1) := rfl
      have hb2 : (b :: l').take (m + 1) = b :: l'.take m := rfl
      rw [hb, hb2, List.sum_cons, List.sum_cons]
      have := ih m (fun x hx => hall x (List.mem_cons_of_mem b hx))
        (by simpa using hlen)
      linarith

/-- For a list whose elements are all at least `a`, extending a taken
prefix by one element adds at least `a` to its sum. -/
theorem le_sum_take_succ (a : ℤ) :
    ∀ (l : List ℤ) (n : ℕ), (∀ x ∈ l, a ≤ x) → n + 1 ≤ l.length →
      a + (l.take n).sum ≤ (l.take (n + 1)).sum := by
  intro l
  induction l with
  | nil => intro n _ hlen; simp at hlen
  | cons b l' ih =>
    intro n hall hlen
    cases n with
    | zero =>
      simpa using hall b (List.mem_cons_self b l')
    | succ m =>
      have hb : (b :: l').take (m + 2) = b :: l'.take (m + 1) := rfl
      have hb2 : (b :: l').take (m + 1) = b :: l'.take m := rfl
      rw [hb, hb2, List.sum_cons, List.sum_cons]
      have := ih m (fun x hx => hall x (List.mem_cons_of_mem b hx))
        (by simpa using hlen)
      linarith

/-- In a descending-sorted list, no sublist beats the prefix of the same
length: the sum of any sublist is at most the sum of the first
`length`-many elements. -/
theorem sum_sublist_le_take :
    ∀ {sub l : List ℤ}, sub <+ l →
      List.Pairwise (fun a b => b ≤ a) l → sub.sum ≤ (l.take sub.length).sum := by
  intro sub l hsub
  induction hsub with
  | slnil => intro _; simp
  | @cons l₁ l₂ a h ih =>
    intro hp
    have hall : ∀ x ∈ l₂, x ≤ a := fun x hx => (List.pairwise_cons.mp hp).1 x hx
    have ih2 := ih (List.pairwise_cons.mp hp).2
    cases hl : l₁.length with
    | zero =>
      have : l₁ = [] := List.length_eq_zero.mp hl
      simp [this]
    | succ n =>
      have h1 : (a :: l₂).take (n + 1) = a :: l₂.take n := rfl
      rw [hl] at ih2
      rw [h1, List.sum_cons]
      have h2 := sum_take_succ_le a l₂ n hall (by rw [← hl]; exact h.length_le)
      linarith
  | @cons₂ l₁ l₂ a h ih =>
    intro hp
    have ih2 := ih (List.pairwise_cons.mp hp).2
    have h1 : (a :: l₂).take (l₁.length + 1) = a :: l₂.take l₁.length := rfl
    simp only [List.length_cons, h1, List.sum_cons]
    linarith

/-- In an ascending-sorted list, no sublist undercuts the prefix of the
same length. -/
theorem take_sum_le_sublist :
    ∀ {sub l : List ℤ}, sub <+ l →
      List.Pairwise (fun a b => a ≤ b) l → (l.take sub.length).sum ≤ sub.sum := by
  intro sub l hsub
  induction hsub with
  | slnil => intro _; simp
  | @cons l₁ l₂ a h ih =>
    intro hp
    have hall : ∀ x ∈ l₂, a ≤ x := fun x hx => (List.pairwise_cons.mp hp).1 x hx
    have ih2 := ih (List.pairwise_cons.mp hp).2
    cases hl : l₁.length with
    | zero =>
      have : l₁ = [] := List.length_eq_zero.mp hl
      simp [this]
    | succ n =>
      have h1 : (a :: l₂).take (n + 1) = a :: l₂.take n := rfl
      rw [hl] at ih2
      rw [h1, List.sum_cons]
      have h2 := le_sum_take_succ a l₂ n hall (by rw [← hl]; exact h.length_le)
      linarith
  | @cons₂ l₁ l₂ a h ih =>
    intro hp
    have ih2 := ih (List.pairwise_cons.mp hp).2
    have h1 : (a :: l₂).take (l₁.length + 1) = a :: l₂.take l₁.length := rfl
    simp only [List.length_cons, h1, List.sum_cons]
    linarith

/-- Any sub-multiset of the remaining cent amounts sums to at most the
solver's best-case bound `topkSum` for its cardinality. -/
theorem sum_le_topkSum {tc lc : List ℤ} (h : tc <+~ lc) :
    tc.sum ≤ topkSum lc tc.length := by
  have hperm : List.insertionSort geZ lc ~ lc := List.perm_insertionSort geZ lc
  have h2 : tc <+~ List.insertionSort geZ lc := h.trans hperm.symm.subperm
  obtain ⟨tc', hp, hs⟩ := h2
  have hsorted : List.Pairwise geZ (List.insertionSort geZ lc) :=
    List.sorted_insertionSort geZ lc
  have := sum_sublist_le_take hs hsorted
  rw [hp.length_eq, hp.sum_eq] at this
  exact this

/-- Any sub-multiset of the remaining cent amounts sums to at least the
solver's worst-case bound `botkSum` for its cardinality. -/
theorem botkSum_le_sum {tc lc : List ℤ} (h : tc <+~ lc) :
    botkSum lc tc.length ≤ tc.sum := by
  have hperm : List.insertionSort (fun a b : ℤ => a ≤ b) lc ~ lc :=
    List.perm_insertionSort _ lc
  have h2 : tc <+~ List.insertionSort (fun a b : ℤ => a ≤ b) lc :=
    h.trans hperm.symm.subperm
  obtain ⟨tc', hp, hs⟩ := h2
  have hsorted : List.Pairwise (fun a b : ℤ => a ≤ b)
      (List.insertionSort (fun a b : ℤ => a ≤ b) lc) :=
    List.sorted_insertionSort _ lc
  have := take_sum_le_sublist hs hsorted
  rw [hp.length_eq, hp.sum_eq] at this
  exact this

/-- The branch resolution returns one of its two branches. -/
theorem combineBest_eq_some {o1 o2 : Option (ℤ × List CandEntry)}
    {r : ℤ × List CandEntry} (h : combineBest o1 o2 = some r) :
    o1 = some r ∨ o2 = some r := by
  cases o1 with
  | none =>
    cases o2 with
    | none => simp [combineBest] at h
    | some p => right; simpa [combineBest] using h
  | some p =>
    cases o2 with
    | none => left; simpa [combineBest] using h
    | some q =>
      obtain ⟨ts, tl⟩ := p
      obtain ⟨ss, sl⟩ := q
      by_cases hgt : ss > ts
      · right; simpa [combineBest, hgt] using h
      · left; simpa [combineBest, hgt] using h

/-- The branch resolution produces a result at least as good as the
take branch. -/
theorem combineBest_left_le {ts : ℤ} {tl : List CandEntry}
    (o2 : Option (ℤ × List CandEntry)) :
    ∃ r, combineBest (some (ts, tl)) o2 = some r ∧ ts ≤ r.1 := by
  cases o2 with
  | none => exact ⟨(ts, tl), rfl, le_refl ts⟩
  | some q =>
    obtain ⟨ss, sl⟩ := q
    by_cases hgt : ss > ts
    · exact ⟨(ss, sl), by simp [combineBest, hgt], le_of_lt hgt⟩
    · exact ⟨(ts, tl), by simp [combineBest, hgt], le_refl ts⟩

/-- The branch resolution produces a result at least as good as the
skip branch. -/
theorem combineBest_right_le (o1 : Option (ℤ × List CandEntry)) {ss : ℤ}
    {sl : List CandEntry} :
    ∃ r, combineBest o1 (some (ss, sl)) = some r ∧ ss ≤ r.1 := by
  cases o1 with
  | none => exact ⟨(ss, sl), rfl, le_refl ss⟩
  | some p =>
    obtain ⟨ts, tl⟩ := p
    by_cases hgt : ss > ts
    · exact ⟨(ss, sl), by simp [combineBest, hgt], le_refl ss⟩
    · exact ⟨(ts, tl), by simp [combineBest, hgt], le_of_not_lt hgt⟩

/-- Whatever `best` returns is an actual solution: a sublist of the
candidate suffix with the requested cardinality and cent sum, whose
score the returned value reports exactly. -/
theorem best_sound :
    ∀ (l : List CandEntry) (k : ℕ) (s sc : ℤ) (sel : List CandEntry),
      best l k s = some (sc, sel) →
      sel <+ l ∧ sel.length = k ∧ centsSum sel = s ∧ scoreSum sel = sc := by
  intro l
  induction l with
  | nil =>
    intro k s sc sel h
    cases k with
    | zero =>
      by_cases hs : s = 0
      · subst hs
        simp only [best, if_true, eq_self_iff_true, Option.some.injEq, Prod.mk.injEq] at h
        obtain ⟨h1, h2⟩ := h
        subst h1; subst h2
        exact ⟨List.nil_sublist [], rfl, rfl, rfl⟩
      · simp [best, hs] at h
    | succ k' => simp [best] at h
  | cons c rest ih =>
    intro k s sc sel h
    cases k with
    | zero =>
      by_cases hs : s = 0
      · subst hs
        simp only [best, if_true, eq_self_iff_true, Option.some.injEq, Prod.mk.injEq] at h
        obtain ⟨h1, h2⟩ := h
        subst h1; subst h2
        exact ⟨List.nil_sublist _, rfl, rfl, rfl⟩
      · simp [best, hs] at h
    | succ k' =>
      rw [best] at h
      simp only [ite_eq_iff, not_lt, gt_iff_lt] at h
      rcases h with ⟨_, h⟩ | ⟨_, h⟩
      · exact Option.noConfusion h
      rcases h with ⟨_, h⟩ | ⟨_, h⟩
      · exact Option.noConfusion h
      rcases h with ⟨_, h⟩ | ⟨_, h⟩
      · exact Option.noConfusion h
      rcases combineBest_eq_some h with htake | hskip
      · by_cases hc : c.cents ≤ s
        · rw [if_pos hc] at htake
          cases hb : best rest k' (s - c.cents) with
          | none => rw [hb] at htake; simp at htake
          | some p =>
            obtain ⟨sc₁, sel₁⟩ := p
            rw [hb] at htake
            rw [Option.map_some'] at htake
            simp only [Option.some.injEq, Prod.mk.injEq] at htake
            obtain ⟨hsc, hsel⟩ := htake
            obtain ⟨ha, hb', hc', hd⟩ := ih k' (s - c.cents) sc₁ sel₁ hb
            subst hsel
            refine ⟨ha.cons₂ c, by simp [hb'], ?_, ?_⟩
            · simp only [centsSum, List.map_cons, List.sum_cons] at hc' ⊢
              omega
            · simp only [scoreSum, List.map_cons, List.sum_cons] at hd ⊢
              omega
        · rw [if_neg hc] at htake
          simp at htake
      · obtain ⟨ha, hb', hc', hd⟩ := ih (k' + 1) s sc sel hskip
        exact ⟨ha.cons c, hb', hc', hd⟩

/-- Sums of nonnegative cent amounts are nonnegative. -/
theorem centsSum_nonneg {t : List CandEntry} (h : ∀ e ∈ t, 0 ≤ e.cents) :
    0 ≤ centsSum t := by
  unfold centsSum
  induction t with
  | nil => simp
  | cons e t' ih =>
    simp only [List.map_cons, List.sum_cons]
    have h1 := h e (List.mem_cons_self e t')
    have h2 := ih (fun x hx => h x (List.mem_cons_of_mem e hx))
    omega

/-- Completeness and optimality of the search: if some sublist of the
candidate suffix has the requested cardinality and cent sum (and all
cent amounts are nonnegative, as they are for parsed statements), then
`best` succeeds and the score it returns is at least that sublist's
score.  Together with `best_sound` this says `best` returns a
maximum-score exact solution whenever one exists. -/
theorem best_main :
    ∀ (l t : List CandEntry) (k : ℕ) (s : ℤ),
      (∀ e ∈ l, 0 ≤ e.cents) → t <+ l → t.length = k → centsSum t = s →
      ∃ sc sel, best l k s = some (sc, sel) ∧ scoreSum t ≤ sc := by
  intro l
  induction l with
  | nil =>
    intro t k s _ hsub hlen hsum
    have ht : t = [] := List.sublist_nil.mp hsub
    subst ht
    have hk : k = 0 := by simpa using hlen.symm
    have hs : s = 0 := by simpa [centsSum] using hsum.symm
    subst hk; subst hs
    exact ⟨0, [], by simp [best], le_refl 0⟩
  | cons c rest ih =>
    intro t k s hnn hsub hlen hsum
    cases k with
    | zero =>
      have ht : t = [] := List.length_eq_zero.mp hlen
      subst ht
      have hs : s = 0 := by simpa [centsSum] using hsum.symm
      subst hs
      exact ⟨0, [], by simp [best], le_refl 0⟩
    | succ k' =>
      have hlenle : k' + 1 ≤ (c :: rest).length := by
        rw [← hlen]; exact hsub.length_le
      have hck1 : ¬ ((c :: rest).length < k' + 1) := not_lt.mpr hlenle
      have htc : t.map CandEntry.cents <+~ (c :: rest).map CandEntry.cents :=
        (hsub.map CandEntry.cents).subperm
      have htop : s ≤ topkSum ((c :: rest).map CandEntry.cents) (k' + 1) := by
        have h0 := sum_le_topkSum htc
        rw [List.length_map, hlen] at h0
        rw [← hsum]
        exact h0
      have hbot : botkSum ((c :: rest).map CandEntry.cents) (k' + 1) ≤ s := by
        have h0 := botkSum_le_sum htc
        rw [List.length_map, hlen] at h0
        rw [← hsum]
        exact h0
      rw [best, if_neg hck1, if_neg (not_lt.mpr htop), if_neg (not_lt.mpr hbot)]
      cases hsub with
      | cons _ h' =>
        obtain ⟨ss, sl, hbs, hge⟩ :=
          ih t (k' + 1) s (fun e he => hnn e (List.mem_cons_of_mem c he)) h' hlen hsum
        rw [hbs]
        obtain ⟨r, hcomb, hr⟩ := combineBest_right_le
          (if c.cents ≤ s then
            (best rest k' (s - c.cents)).map (fun p => (p.1 + c.score, c :: p.2))
           else none)
        exact ⟨r.1, r.2, by rw [hcomb], le_trans hge hr⟩
      | cons₂ _ h' =>
        rename_i t'
        have hlen' : t'.length = k' := by simpa using hlen
        have hnn' : ∀ e ∈ t', 0 ≤ e.cents :=
          fun e he => hnn e (List.mem_cons_of_mem c (h'.subset he))
        have hsum' : centsSum t' = s - c.cents := by
          simp only [centsSum, List.map_cons, List.sum_cons] at hsum
          simp only [centsSum]
          omega
        have hc : c.cents ≤ s := by
          have := centsSum_nonneg hnn'
          rw [hsum'] at this
          omega
        obtain ⟨sc₁, sel₁, hbs, hge⟩ :=
          ih t' k' (s - c.cents) (fun e he => hnn e (List.mem_cons_of_mem c he))
            h' hlen' hsum'
        rw [if_pos hc, hbs, Option.map_some']
        obtain ⟨r, hcomb, hr⟩ := combineBest_left_le (best rest (k' + 1) s)
        refine ⟨r.1, r.2, by rw [hcomb], ?_⟩
        have hsc : scoreSum (c :: t') = c.score + scoreSum t' := by
          simp [scoreSum]
        rw [hsc]
        omega

/-- The rows classified as credits. -/
def creditPart (out : List TxRec) : List TxRec :=
  out.filter (fun r => r.direction == "credit")

/-- The rows classified as debits. -/
def debitPart (out : List TxRec) : List TxRec :=
  out.filter (fun r => r.direction == "debit")

/-- Sum of the `amount` column. -/
def amountSum (l : List TxRec) : ℚ := (l.map TxRec.amount).sum

/-- Cent value of the seed rows, summed per row. -/
def seedCents (df : List TxRec) : ℤ :=
  (((indexedRecs df).filter seedP).map (fun p => centsOf p.2.amount)).sum

/-- When the solver returns a solution, `_reconcile_credits` marks
exactly the seeds and the solution rows as credits. -/
theorem reconcile_eq_of_best_some (df : List TxRec) (totals : StatementTotals)
    (hk : 0 < remainingK df totals) {sc : ℤ} {sel : List CandEntry}
    (hbest : best (sortedCands df) (remainingK df totals).toNat
      (remainingSum df totals) = some (sc, sel)) :
    _reconcile_credits df totals
      = assignDirs df (seedIdx df ++ sel.map CandEntry.idx) := by
  unfold _reconcile_credits
  rw [if_neg (not_le.mpr hk), hbest]

/-- When the solver fails, `_reconcile_credits` marks exactly the seeds
as credits. -/
theorem reconcile_eq_of_best_none (df : List TxRec) (totals : StatementTotals)
    (hk : 0 < remainingK df totals)
    (hbest : best (sortedCands df) (remainingK df totals).toNat
      (remainingSum df totals) = none) :
    _reconcile_credits df totals = assignDirs df (seedIdx df) := by
  unfold _reconcile_credits
  rw [if_neg (not_le.mpr hk), hbest]
  show assignDirs df (seedIdx df ++ []) = assignDirs df (seedIdx df)
  rw [List.append_nil]

/-- When the seeds already reach the declared count,
`_reconcile_credits` marks exactly the seeds as credits. -/
theorem reconcile_eq_of_k_nonpos (df : List TxRec) (totals : StatementTotals)
    (hk : remainingK df totals ≤ 0) :
    _reconcile_credits df totals = assignDirs df (seedIdx df) := by
  unfold _reconcile_credits
  rw [if_pos hk]

/-- Setting a direction leaves every other column unchanged. -/
theorem setDir_amount (r : TxRec) (d : String) : (setDir r d).amount = r.amount := rfl

theorem setDir_direction (r : TxRec) (d : String) : (setDir r d).direction = d := rfl

/-- The credit rows of an assignment are the rows whose index is in the
credit set, re-tagged. -/
theorem creditPart_assignDirs (df : List TxRec) (cs : List ℕ) :
    creditPart (assignDirs df cs)
      = ((indexedRecs df).filter (fun p => decide (p.1 ∈ cs))).map
          (fun p => setDir p.2 ("credit")) := by
  unfold creditPart assignDirs
  rw [List.filter_map]
  have hpred : ∀ p : ℕ × TxRec,
      ((fun r => r.direction == "credit") ∘
        (fun p : ℕ × TxRec => setDir p.2 (if p.1 ∈ cs then "credit" else "debit"))) p
        = decide (p.1 ∈ cs) := by
    intro p
    by_cases hp : p.1 ∈ cs
    · simp [hp, setDir]
    · simp [hp, setDir]
  rw [show ((fun r => r.direction == "credit") ∘
        (fun p : ℕ × TxRec => setDir p.2 (if p.1 ∈ cs then "credit" else "debit")))
      = (fun p : ℕ × TxRec => decide (p.1 ∈ cs)) from funext hpred]
  apply List.map_congr_left
  intro p hp
  have := List.of_mem_filter hp
  have hmem : p.1 ∈ cs := of_decide_eq_true this
  simp [hmem]

/-- The debit rows of an assignment are the rows whose index is not in
the credit set, re-tagged. -/
theorem debitPart_assignDirs (df : List TxRec) (cs : List ℕ) :
    debitPart (assignDirs df cs)
      = ((indexedRecs df).filter (fun p => decide (p.1 ∉ cs))).map
          (fun p => setDir p.2 ("debit")) := by
  unfold debitPart assignDirs
  rw [List.filter_map]
  have hpred : ∀ p : ℕ × TxRec,
      ((fun r => r.direction == "debit") ∘
        (fun p : ℕ × TxRec => setDir p.2 (if p.1 ∈ cs then "credit" else "debit"))) p
        = decide (p.1 ∉ cs) := by
    intro p
    by_cases hp : p.1 ∈ cs
    · simp [hp, setDir]
    · simp [hp, setDir]
  rw [show ((fun r => r.direction == "debit") ∘
        (fun p : ℕ × TxRec => setDir p.2 (if p.1 ∈ cs then "credit" else "debit")))
      = (fun p : ℕ × TxRec => decide (p.1 ∉ cs)) from funext hpred]
  apply List.map_congr_left
  intro p hp
  have := List.of_mem_filter hp
  have hmem : p.1 ∉ cs := of_decide_eq_true this
  simp [hmem]

/-- Splitting a filter over a disjunction of disjoint predicates, up to
permutation. -/
theorem filter_or_perm {α : Type} (p q : α → Bool) :
    ∀ (l : List α), (∀ x ∈ l, ¬(p x = true ∧ q x = true)) →
      l.filter (fun x => p x || q x) ~ l.filter p ++ l.filter q := by
  intro l
  induction l with
  | nil => intro _; simp
  | cons a l' ih =>
    intro hdisj
    have ih2 := ih (fun x hx => hdisj x (List.mem_cons_of_mem a hx))
    by_cases hp : p a
    · have hq : ¬ q a := fun hq => hdisj a (List.mem_cons_self a l') ⟨hp, hq⟩
      simp only [List.filter_cons, hp, Bool.true_or, if_true]
      simpa [hp, hq] using ih2.cons a
    · by_cases hq : q a
      · simp only [List.filter_cons]
        have h1 : (p a || q a) = true := by simp [hq]
        rw [h1]
        simp only [if_true]
        have h2 : (a :: (l'.filter p ++ l'.filter q)) ~
            l'.filter p ++ a :: l'.filter q := List.perm_middle.symm
        have h3 : (a :: l'.filter (fun x => p x || q x)) ~
            a :: (l'.filter p ++ l'.filter q) := ih2.cons a
        have heq : (if p a = true then a :: l'.filter p else l'.filter p)
            = l'.filter p := by simp [hp]
        rw [heq]
        have heq2 : (if q a = true then a :: l'.filter q else l'.filter q)
            = a :: l'.filter q := by simp [hq]
        rw [heq2]
        exact h3.trans h2
      · have h1 : (p a || q a) = false := by simp [hp, hq]
        simp only [List.filter_cons, h1, hp, hq]
        simpa using ih2

/-- Two sublists of a duplicate-free list with the same elements are
equal. -/
theorem eq_of_sublist_of_mem_iff {α : Type} :
    ∀ {l sub₁ sub₂ : List α}, sub₁ <+ l → sub₂ <+ l → l.Nodup →
      (∀ x, x ∈ sub₁ ↔ x ∈ sub₂) → sub₁ = sub₂ := by
  intro l
  induction l with
  | nil =>
    intro sub₁ sub₂ h1 h2 _ _
    rw [List.sublist_nil.mp h1, List.sublist_nil.mp h2]
  | cons a l' ih =>
    intro sub₁ sub₂ h1 h2 hnd hiff
    have hna : a ∉ l' := (List.nodup_cons.mp hnd).1
    have hnd' : l'.Nodup := (List.nodup_cons.mp hnd).2
    rcases List.sublist_cons_iff.mp h1 with h1' | ⟨t₁, ht₁e, ht₁⟩
    · rcases List.sublist_cons_iff.mp h2 with h2' | ⟨t₂, ht₂e, ht₂⟩
      · exact ih h1' h2' hnd' hiff
      · exfalso
        have : a ∈ sub₁ := (hiff a).mpr (ht₂e ▸ List.mem_cons_self a t₂)
        exact hna (h1'.subset this)
    · rcases List.sublist_cons_iff.mp h2 with h2' | ⟨t₂, ht₂e, ht₂⟩
      · exfalso
        have : a ∈ sub₂ := (hiff a).mp (ht₁e ▸ List.mem_cons_self a t₁)
        exact hna (h2'.subset this)
      · subst ht₁e; subst ht₂e
        congr 1
        apply ih ht₁ ht₂ hnd'
        intro x
        constructor
        · intro hx
          have hxa : x ≠ a := fun hxe => hna (hxe ▸ ht₁.subset hx)
          have := (hiff x).mp (List.mem_cons_of_mem a hx)
          rcases List.mem_cons.mp this with h | h
          · exact absurd h hxa
          · exact h
        · intro hx
          have hxa : x ≠ a := fun hxe => hna (hxe ▸ ht₂.subset hx)
          have := (hiff x).mpr (List.mem_cons_of_mem a hx)
          rcases List.mem_cons.mp this with h | h
          · exact absurd h hxa
          · exact h

/-- The DataFrame indices are `0, 1, 2, …`. -/
theorem indexed_map_fst (df : List TxRec) :
    (indexedRecs df).map Prod.fst = List.range df.length := List.enum_map_fst df

theorem indexed_fst_nodup (df : List TxRec) :
    ((indexedRecs df).map Prod.fst).Nodup := by
  rw [indexed_map_fst]; exact List.nodup_range df.length

theorem indexed_nodup (df : List TxRec) : (indexedRecs df).Nodup :=
  (indexed_fst_nodup df).of_map

/-- Rows with equal indices are equal. -/
theorem indexed_inj (df : List TxRec) {p q : ℕ × TxRec}
    (hp : p ∈ indexedRecs df) (hq : q ∈ indexedRecs df) (h : p.1 = q.1) : p = q :=
  List.inj_on_of_nodup_map (indexed_fst_nodup df) hp hq h

/-- An enumerated row is a row of the frame. -/
theorem mem_indexed_snd {df : List TxRec} {p : ℕ × TxRec}
    (hp : p ∈ indexedRecs df) : p.2 ∈ df := by
  have h1 : p.2 ∈ (indexedRecs df).map Prod.snd := List.mem_map_of_mem Prod.snd hp
  rwa [indexedRecs, List.enum_map_snd] at h1

/-- An index is in `seed_idx` exactly when its row is a seed. -/
theorem mem_seedIdx_iff (df : List TxRec) {p : ℕ × TxRec}
    (hp : p ∈ indexedRecs df) : p.1 ∈ seedIdx df ↔ seedP p = true := by
  constructor
  · intro h
    obtain ⟨q, hq, hqe⟩ := List.mem_map.mp h
    have hq2 : q ∈ indexedRecs df := List.mem_of_mem_filter hq
    have hqp : q = p := indexed_inj df hq2 hp hqe
    have := List.of_mem_filter hq
    rwa [hqp] at this
  · intro h
    exact List.mem_map_of_mem _ (List.mem_filter.mpr ⟨hp, h⟩)

/-- Any sublist of the sorted candidate pool is, up to permutation, the
solver view of a sublist of the non-seed rows. -/
theorem sel_decomp (df : List TxRec) {sel : List CandEntry}
    (hsel : sel <+ sortedCands df) :
    ∃ sub, sub <+ (indexedRecs df).filter (fun p => ¬ seedP p) ∧
      sel ~ sub.map mkEntry := by
  have h1 : sel <+~ candEntries df :=
    hsel.subperm.trans (List.perm_insertionSort keyGe (candEntries df)).subperm
  obtain ⟨sel', hperm, hsub⟩ := h1
  unfold candEntries at hsub
  obtain ⟨sub, hsub2, heq⟩ := List.sublist_map_iff.mp hsub
  refine ⟨sub, hsub2, ?_⟩
  rw [← heq]
  exact hperm.symm

/-- The rows whose index lands in `seed_idx ++ sol` are, up to
permutation, the seed rows followed by the solution rows. -/
theorem credit_rows_perm (df : List TxRec) {sel : List CandEntry}
    {sub : List (ℕ × TxRec)}
    (hsub : sub <+ (indexedRecs df).filter (fun p => ¬ seedP p))
    (hperm : sel ~ sub.map mkEntry) :
    (indexedRecs df).filter
        (fun p => decide (p.1 ∈ seedIdx df ++ sel.map CandEntry.idx))
      ~ (indexedRecs df).filter seedP ++ sub := by
  have hsubI : sub <+ indexedRecs df :=
    hsub.trans (List.filter_sublist (indexedRecs df))
  have hcong : ∀ p ∈ indexedRecs df,
      decide (p.1 ∈ seedIdx df ++ sel.map CandEntry.idx)
        = (seedP p || decide (p ∈ sub)) := by
    intro p hp
    have hsol : p.1 ∈ sel.map CandEntry.idx ↔ p ∈ sub := by
      constructor
      · intro h
        have h2 : p.1 ∈ (sub.map mkEntry).map CandEntry.idx :=
          (hperm.map CandEntry.idx).mem_iff.mp h
        rw [List.map_map] at h2
        have h3 : p.1 ∈ sub.map Prod.fst := by
          have : (CandEntry.idx ∘ mkEntry) = (Prod.fst : ℕ × TxRec → ℕ) := rfl
          rwa [this] at h2
        obtain ⟨q, hq, hqe⟩ := List.mem_map.mp h3
        have hqp : q = p := indexed_inj df (hsubI.subset hq) hp hqe
        rwa [hqp] at hq
      · intro h
        have h2 : p.1 ∈ sub.map Prod.fst := List.mem_map_of_mem Prod.fst h
        have h3 : p.1 ∈ (sub.map mkEntry).map CandEntry.idx := by
          rw [List.map_map]
          have : (CandEntry.idx ∘ mkEntry) = (Prod.fst : ℕ × TxRec → ℕ) := rfl
          rwa [this]
        exact (hperm.map CandEntry.idx).mem_iff.mpr h3
    have hm : p.1 ∈ seedIdx df ++ sel.map CandEntry.idx
        ↔ (seedP p = true ∨ p ∈ sub) := by
      rw [List.mem_append, mem_seedIdx_iff df hp, hsol]
    calc decide (p.1 ∈ seedIdx df ++ sel.map CandEntry.idx)
        = decide (seedP p = true ∨ p ∈ sub) := decide_eq_decide.mpr hm
      _ = (decide (seedP p = true) || decide (p ∈ sub)) := Bool.decide_or _ _
      _ = (seedP p || decide (p ∈ sub)) := by simp
  rw [List.filter_congr hcong]
  have hdisj : ∀ p ∈ indexedRecs df,
      ¬(seedP p = true ∧ decide (p ∈ sub) = true) := by
    intro p _ ⟨h1, h2⟩
    have h3 : p ∈ sub := of_decide_eq_true h2
    have h4 := List.of_mem_filter (hsub.subset h3)
    simp only [h1] at h4
    exact absurd h4 (by simp)
  have hfm : (indexedRecs df).filter (fun p => decide (p ∈ sub)) = sub := by
    apply eq_of_sublist_of_mem_iff (List.filter_sublist (indexedRecs df)) hsubI
      (indexed_nodup df)
    intro x
    constructor
    · intro hx
      exact of_decide_eq_true (List.mem_filter.mp hx).2
    · intro hx
      exact List.mem_filter.mpr ⟨hsubI.subset hx, decide_eq_true hx⟩
  have hsplit := filter_or_perm seedP (fun p => decide (p ∈ sub))
    (indexedRecs df) hdisj
  rw [hfm] at hsplit
  exact hsplit

/-- Casting an integer list sum into the rationals elementwise. -/
theorem sum_intCast_map {α : Type} (l : List α) (g : α → ℤ) :
    (((l.map g).sum : ℤ) : ℚ) = (l.map (fun x => ((g x : ℤ) : ℚ))).sum := by
  induction l with
  | nil => simp
  | cons a l ih =>
    simp only [List.map_cons, List.sum_cons, Int.cast_add, ih]

/-- Rounding an integer-valued rational is exact. -/
theorem pyRound_intCast (n : ℤ) : pyRound ((n : ℚ)) = n := by
  unfold pyRound
  rw [Rat.num_intCast, Rat.den_intCast]
  simp [Int.fdiv_one]

/-- Cent-exactness: every amount of the frame is a whole number of
cents, which holds for every amount produced by statement parsing
(`MONEY_RE` captures two decimal places; a missing amount is zero). -/
abbrev CentExact (df : List TxRec) : Prop :=
  ∀ r ∈ df, ((centsOf r.amount : ℤ) : ℚ) = r.amount * 100

/-- On cent-exact frames the rounded float sum of the seeds equals the
summed per-row cents. -/
theorem seedSum_eq_seedCents (df : List TxRec) (hce : CentExact df) :
    seedSum df = seedCents df := by
  unfold seedSum seedCents
  have hmap : ((((indexedRecs df).filter seedP).map (fun p => p.2.amount)).sum) * 100
      = ((((indexedRecs df).filter seedP).map
          (fun p => ((centsOf p.2.amount : ℤ) : ℚ))).sum) := by
    rw [← List.sum_map_mul_right]
    apply congrArg List.sum
    apply List.map_congr_left
    intro p hp
    exact (hce p.2 (mem_indexed_snd (List.mem_of_mem_filter hp))).symm
  rw [hmap, ← sum_intCast_map, pyRound_intCast]

/-- The cent value of the solver view of rows. -/
theorem centsSum_map_mkEntry (sub : List (ℕ × TxRec)) :
    centsSum (sub.map mkEntry)
      = (sub.map (fun p => centsOf p.2.amount)).sum := by
  unfold centsSum
  rw [List.map_map]
  rfl

/-- Credit side of an exact reconciliation: when the solver succeeds
the number of credit rows is the declared credit count, and (on
cent-exact frames) the credit amounts sum to the declared credit total
in cents. -/
theorem reconcile_exact (df : List TxRec) (totals : StatementTotals)
    (hk : 0 < remainingK df totals) {sc : ℤ} {sel : List CandEntry}
    (hbest : best (sortedCands df) (remainingK df totals).toNat
      (remainingSum df totals) = some (sc, sel)) :
    (creditPart (_reconcile_credits df totals)).length = totals.count_abonos
    ∧ (CentExact df →
        amountSum (creditPart (_reconcile_credits df totals)) * 100
          = ((targetSum totals : ℤ) : ℚ)) := by
  obtain ⟨hselsub, hsellen, hselsum, _⟩ :=
    best_sound (sortedCands df) (remainingK df totals).toNat
      (remainingSum df totals) sc sel hbest
  obtain ⟨sub, hsub, hperm⟩ := sel_decomp df hselsub
  rw [reconcile_eq_of_best_some df totals hk hbest, creditPart_assignDirs]
  have hrows := credit_rows_perm df hsub hperm
  have hsublen : sub.length = sel.length := by
    rw [hperm.length_eq, List.length_map]
  constructor
  · rw [List.length_map, hrows.length_eq, List.length_append, hsublen, hsellen]
    have hK : ((seedIdx df).length : ℤ) < totals.count_abonos := by
      have := hk
      unfold remainingK at this
      omega
    have hfl : ((indexedRecs df).filter seedP).length = (seedIdx df).length := by
      unfold seedIdx
      rw [List.length_map]
    rw [hfl]
    unfold remainingK
    omega
  · intro hce
    have hamt : amountSum
        (((indexedRecs df).filter
            (fun p => decide (p.1 ∈ seedIdx df ++ sel.map CandEntry.idx))).map
          (fun p => setDir p.2 ("credit")))
        = (((indexedRecs df).filter seedP ++ sub).map
            (fun p => p.2.amount)).sum := by
      unfold amountSum
      rw [List.map_map]
      have h1 : ((fun r => TxRec.amount r) ∘ (fun p : ℕ × TxRec => setDir p.2 ("credit")))
          = (fun p : ℕ × TxRec => p.2.amount) := rfl
      rw [h1]
      exact (hrows.map (fun p : ℕ × TxRec => p.2.amount)).sum_eq
    rw [hamt, List.map_append, List.sum_append, add_mul]
    have hseed : ((((indexedRecs df).filter seedP).map
        (fun p => p.2.amount)).sum) * 100 = ((seedCents df : ℤ) : ℚ) := by
      have := seedSum_eq_seedCents df hce
      unfold seedSum at this
      have h2 : ((((indexedRecs df).filter seedP).map (fun p => p.2.amount)).sum) * 100
          = ((((indexedRecs df).filter seedP).map
              (fun p => ((centsOf p.2.amount : ℤ) : ℚ))).sum) := by
        rw [← List.sum_map_mul_right]
        apply congrArg List.sum
        apply List.map_congr_left
        intro p hp
        exact (hce p.2 (mem_indexed_snd (List.mem_of_mem_filter hp))).symm
      rw [h2, ← sum_intCast_map]
      unfold seedCents
      rfl
    have hsubamt : ((sub.map (fun p => p.2.amount)).sum) * 100
        = ((centsSum sel : ℤ) : ℚ) := by
      have h2 : ((sub.map (fun p => p.2.amount)).sum) * 100
          = ((sub.map (fun p => ((centsOf p.2.amount : ℤ) : ℚ))).sum) := by
        rw [← List.sum_map_mul_right]
        apply congrArg List.sum
        apply List.map_congr_left
        intro p hp
        have hpI : p ∈ indexedRecs df :=
          (hsub.trans (List.filter_sublist (indexedRecs df))).subset hp
        exact (hce p.2 (mem_indexed_snd hpI)).symm
      rw [h2, ← sum_intCast_map]
      have h3 : centsSum sel = (sub.map (fun p => centsOf p.2.amount)).sum := by
        unfold centsSum
        rw [(hperm.map CandEntry.cents).sum_eq, List.map_map]
        rfl
      rw [h3]
    rw [hseed, hsubamt, hselsum]
    unfold remainingSum
    rw [seedSum_eq_seedCents df hce]
    push_cast
    ring

/-- A filter and its complementary filter split the mapped sum. -/
theorem filter_not_split_sum {α : Type} (p : α → Bool) (f : α → ℚ) :
    ∀ (l : List α),
      ((l.filter p).map f).sum + ((l.filter (fun x => !p x)).map f).sum
        = (l.map f).sum := by
  intro l
  induction l with
  | nil => simp
  | cons a l' ih =>
    by_cases hp : p a
    · rw [List.filter_cons_of_pos hp, List.filter_cons_of_neg (by simp [hp])]
      simp only [List.map_cons, List.sum_cons]
      linarith
    · rw [List.filter_cons_of_neg hp, List.filter_cons_of_pos (by simp [hp])]
      simp only [List.map_cons, List.sum_cons]
      linarith

/-- A filter and its complementary filter split the length. -/
theorem filter_not_split_length {α : Type} (p : α → Bool) :
    ∀ (l : List α),
      (l.filter p).length + (l.filter (fun x => !p x)).length = l.length := by
  intro l
  induction l with
  | nil => simp
  | cons a l' ih =>
    by_cases hp : p a
    · rw [List.filter_cons_of_pos hp, List.filter_cons_of_neg (by simp [hp])]
      simp only [List.length_cons]
      omega
    · rw [List.filter_cons_of_neg hp, List.filter_cons_of_pos (by simp [hp])]
      simp only [List.length_cons]
      omega

/-- The amount column of the enumerated frame is the amount column of
the frame. -/
theorem indexed_amount_sum (df : List TxRec) :
    ((indexedRecs df).map (fun p => p.2.amount)).sum = amountSum df := by
  unfold amountSum
  have h1 : (indexedRecs df).map (fun p => p.2.amount)
      = ((indexedRecs df).map Prod.snd).map TxRec.amount := by
    rw [List.map_map]
    rfl
  rw [h1, indexedRecs, List.enum_map_snd]

/-- Credits and debits of an assignment partition the frame: their
amount sums add to the frame total and their lengths add to the frame
length. -/
theorem credit_debit_split (df : List TxRec) (cs : List ℕ) :
    amountSum (creditPart (assignDirs df cs))
      + amountSum (debitPart (assignDirs df cs)) = amountSum df
    ∧ (creditPart (assignDirs df cs)).length
      + (debitPart (assignDirs df cs)).length = df.length := by
  rw [creditPart_assignDirs, debitPart_assignDirs]
  have hnotp : (fun p : ℕ × TxRec => decide (p.1 ∉ cs))
      = (fun p : ℕ × TxRec => !(decide (p.1 ∈ cs))) := by
    funext p
    simp [decide_not]
  rw [hnotp]
  constructor
  · unfold amountSum
    rw [List.map_map, List.map_map]
    have h1 : (TxRec.amount ∘ fun p : ℕ × TxRec => setDir p.2 ("credit"))
        = (fun p : ℕ × TxRec => p.2.amount) := rfl
    have h2 : (TxRec.amount ∘ fun p : ℕ × TxRec => setDir p.2 ("debit"))
        = (fun p : ℕ × TxRec => p.2.amount) := rfl
    rw [h1, h2]
    rw [filter_not_split_sum (fun p : ℕ × TxRec => decide (p.1 ∈ cs))
      (fun p : ℕ × TxRec => p.2.amount) (indexedRecs df)]
    exact indexed_amount_sum df
  · rw [List.length_map, List.length_map]
    rw [filter_not_split_length (fun p : ℕ × TxRec => decide (p.1 ∈ cs))
      (indexedRecs df)]
    unfold indexedRecs
    exact List.enum_length

/-- Claim C1 (amended): for every frame with totals on which the solver
finds an exact solution, the credit rows of `_reconcile_credits` sum
(exactly, on cent-exact amounts) to the declared credit total
`total_abonos` and number the declared credit count `count_abonos`; the
debit complement additionally matches the declared debit totals
whenever the statement is conservative, i.e. the frame's amounts sum to
`total_abonos + total_cargos` and its row count is
`count_abonos + count_cargos` (the source checks neither). -/
theorem C1_amended (df : List TxRec) (totals : StatementTotals)
    (hce : CentExact df)
    (hceA : ((centsOf totals.total_abonos : ℤ) : ℚ) = totals.total_abonos * 100)
    (hk : 0 < remainingK df totals)
    (hsome : (best (sortedCands df) (remainingK df totals).toNat
      (remainingSum df totals)).isSome) :
    amountSum (creditPart (_reconcile_credits df totals)) = totals.total_abonos
    ∧ (creditPart (_reconcile_credits df totals)).length = totals.count_abonos
    ∧ (amountSum df = totals.total_abonos + totals.total_cargos →
        amountSum (debitPart (_reconcile_credits df totals)) = totals.total_cargos)
    ∧ (df.length = totals.count_abonos + totals.count_cargos →
        (debitPart (_reconcile_credits df totals)).length = totals.count_cargos) := by
  obtain ⟨⟨sc, sel⟩, hbest⟩ := Option.isSome_iff_exists.mp hsome
  obtain ⟨hcount, hsum100⟩ := reconcile_exact df totals hk hbest
  have hsum : amountSum (creditPart (_reconcile_credits df totals))
      = totals.total_abonos := by
    have h1 := hsum100 hce
    unfold targetSum at h1
    rw [hceA] at h1
    exact mul_right_cancel₀ (by norm_num : (100 : ℚ) ≠ 0) h1
  have hout : _reconcile_credits df totals
      = assignDirs df (seedIdx df ++ sel.map CandEntry.idx) :=
    reconcile_eq_of_best_some df totals hk hbest
  obtain ⟨hsplit1, hsplit2⟩ :=
    credit_debit_split df (seedIdx df ++ sel.map CandEntry.idx)
  rw [← hout] at hsplit1 hsplit2
  refine ⟨hsum, hcount, ?_, ?_⟩
  · intro hcons
    rw [hsum] at hsplit1
    linarith
  · intro hcons
    rw [hcount] at hsplit2
    omega

/-- A throwaway valid date for concrete test frames. -/
def cexDate : Date := ⟨2025, 12, 3⟩

/-- A concrete row for test frames. -/
def mkRec (desc : String) (amt : ℚ) : TxRec :=
  { date := cexDate, liq_date := cexDate, description := desc, amount := amt,
    direction := "debit", source := "s" }

def c1df : List TxRec := [mkRec ("A") 100, mkRec ("B") 50, mkRec ("C") 25]

def c1totals : StatementTotals :=
  { total_cargos := 50, count_cargos := 1, total_abonos := 100, count_abonos := 1 }

/-- Claim C1 (counterexample): on the frame with amounts 100, 50, 25
and declared totals (abonos 100 in 1 movement, cargos 50 in 1
movement) the solver finds an exact credit solution — the credit rows
reconcile exactly — yet the debit rows sum to 75 ≠ 50 and number
2 ≠ 1: the debit half of the claim fails because the source only
reconciles credits and never checks the debit totals. -/
theorem C1_counterexample :
    0 < remainingK c1df c1totals
    ∧ (best (sortedCands c1df) (remainingK c1df c1totals).toNat
        (remainingSum c1df c1totals)).isSome
    ∧ amountSum (creditPart (_reconcile_credits c1df c1totals))
        = c1totals.total_abonos
    ∧ (creditPart (_reconcile_credits c1df c1totals)).length
        = c1totals.count_abonos
    ∧ amountSum (debitPart (_reconcile_credits c1df c1totals))
        ≠ c1totals.total_cargos
    ∧ (debitPart (_reconcile_credits c1df c1totals)).length
        ≠ c1totals.count_cargos := by
  decide

def c1wdf : List TxRec := [mkRec ("A") 100, mkRec ("B") 50]

/-- Claim C1 (witness): the amended theorem applied to the conservative
frame with amounts 100 and 50 and totals (abonos 100/1, cargos 50/1). -/
theorem C1_witness :
    CentExact c1wdf
    ∧ ((centsOf c1totals.total_abonos : ℤ) : ℚ) = c1totals.total_abonos * 100
    ∧ 0 < remainingK c1wdf c1totals
    ∧ (best (sortedCands c1wdf) (remainingK c1wdf c1totals).toNat
        (remainingSum c1wdf c1totals)).isSome
    ∧ (amountSum (creditPart (_reconcile_credits c1wdf c1totals))
          = c1totals.total_abonos
        ∧ (creditPart (_reconcile_credits c1wdf c1totals)).length
          = c1totals.count_abonos
        ∧ (amountSum c1wdf = c1totals.total_abonos + c1totals.total_cargos →
            amountSum (debitPart (_reconcile_credits c1wdf c1totals))
              = c1totals.total_cargos)
        ∧ (c1wdf.length = c1totals.count_abonos + c1totals.count_cargos →
            (debitPart (_reconcile_credits c1wdf c1totals)).length
              = c1totals.count_cargos)) :=
  ⟨by decide, by decide, by decide, by decide,
    C1_amended c1wdf c1totals (by decide) (by decide) (by decide) (by decide)⟩

/-- Claim C2: whenever `residualCount` is positive and some subset of
the non-seed candidate pool has exactly `residualCount` elements and
cent sum `residualSum`, the solver succeeds and returns a feasible
subset of maximal total plausibility score among all feasible subsets
(feasibility dominates score), and every non-seed row not selected is
assigned direction "debit".  Nonnegativity of the cent amounts, true of
every parsed statement, is assumed. -/
theorem C2_solver_optimal (df : List TxRec) (totals : StatementTotals)
    (hk : 0 < remainingK df totals)
    (hnn : ∀ e ∈ candEntries df, 0 ≤ e.cents)
    (t : List CandEntry)
    (ht : t <+~ candEntries df)
    (htlen : t.length = (remainingK df totals).toNat)
    (htsum : centsSum t = remainingSum df totals) :
    ∃ sc sel,
      best (sortedCands df) (remainingK df totals).toNat
          (remainingSum df totals) = some (sc, sel)
      ∧ sel <+~ candEntries df
      ∧ sel.length = (remainingK df totals).toNat
      ∧ centsSum sel = remainingSum df totals
      ∧ scoreSum t ≤ sc
      ∧ (∀ t', t' <+~ candEntries df →
          t'.length = (remainingK df totals).toNat →
          centsSum t' = remainingSum df totals → scoreSum t' ≤ sc)
      ∧ (∀ p ∈ indexedRecs df, seedP p = false →
          p.1 ∉ sel.map CandEntry.idx →
          setDir p.2 ("debit") ∈ _reconcile_credits df totals) := by
  have hperm : sortedCands df ~ candEntries df :=
    List.perm_insertionSort keyGe (candEntries df)
  have hnn' : ∀ e ∈ sortedCands df, 0 ≤ e.cents :=
    fun e he => hnn e (hperm.subset he)
  have hfind : ∀ t', t' <+~ candEntries df →
      t'.length = (remainingK df totals).toNat →
      centsSum t' = remainingSum df totals →
      ∃ sc sel, best (sortedCands df) (remainingK df totals).toNat
          (remainingSum df totals) = some (sc, sel) ∧ scoreSum t' ≤ sc := by
    intro t' ht' htlen' htsum'
    obtain ⟨t'', ht''p, ht''s⟩ := ht'.trans hperm.symm.subperm
    obtain ⟨sc, sel, hbest, hge⟩ :=
      best_main (sortedCands df) t'' (remainingK df totals).toNat
        (remainingSum df totals) hnn' ht''s
        (by rw [ht''p.length_eq]; exact htlen')
        (by unfold centsSum; rw [(ht''p.map CandEntry.cents).sum_eq]
            exact htsum')
    refine ⟨sc, sel, hbest, ?_⟩
    have : scoreSum t'' = scoreSum t' := by
      unfold scoreSum
      exact (ht''p.map CandEntry.score).sum_eq
    rwa [this] at hge
  obtain ⟨sc, sel, hbest, hge⟩ := hfind t ht htlen htsum
  obtain ⟨hselsub, hsellen, hselsum, _⟩ :=
    best_sound (sortedCands df) (remainingK df totals).toNat
      (remainingSum df totals) sc sel hbest
  refine ⟨sc, sel, hbest, hselsub.subperm.trans hperm.subperm, hsellen, hselsum,
    hge, ?_, ?_⟩
  · intro t' ht' htlen' htsum'
    obtain ⟨sc₂, sel₂, hbest₂, hge₂⟩ := hfind t' ht' htlen' htsum'
    rw [hbest] at hbest₂
    have : sc₂ = sc := by
      injection hbest₂ with h
      exact (congrArg Prod.fst h).symm
    rwa [this] at hge₂
  · intro p hp hps hpsol
    rw [reconcile_eq_of_best_some df totals hk hbest]
    unfold assignDirs
    have hseed : p.1 ∉ seedIdx df := by
      intro hmem
      have := (mem_seedIdx_iff df hp).mp hmem
      rw [hps] at this
      exact absurd this (by simp)
    have hnotin : p.1 ∉ seedIdx df ++ sel.map CandEntry.idx := by
      rw [List.mem_append]
      rintro (h | h)
      · exact hseed h
      · exact hpsol h
    have : setDir p.2 (if p.1 ∈ seedIdx df ++ sel.map CandEntry.idx
        then "credit" else "debit") = setDir p.2 ("debit") := by
      rw [if_neg hnotin]
    rw [← this]
    exact List.mem_map_of_mem _ hp

def c2df : List TxRec := [mkRec ("X") 100, mkRec ("NOMINA RECIBIDA") 50]

def c2totals : StatementTotals :=
  { total_cargos := 50, count_cargos := 1, total_abonos := 100, count_abonos := 1 }

/-- Claim C2 (witness): with residualCount 1 and residualSum 10000 and
candidates of cent amounts 10000 (score 0) and 5000 (score 18), the
subset [10000-entry] is feasible, the theorem applies, and the solver
concretely returns the 10000-cent record despite its lower score:
exact-sum feasibility dominates plausibility. -/
theorem C2_witness :
    0 < remainingK c2df c2totals
    ∧ (∀ e ∈ candEntries c2df, 0 ≤ e.cents)
    ∧ [(⟨0, 10000, 0⟩ : CandEntry)] <+~ candEntries c2df
    ∧ ([(⟨0, 10000, 0⟩ : CandEntry)]).length = (remainingK c2df c2totals).toNat
    ∧ centsSum [(⟨0, 10000, 0⟩ : CandEntry)] = remainingSum c2df c2totals
    ∧ (∃ sc sel,
        best (sortedCands c2df) (remainingK c2df c2totals).toNat
            (remainingSum c2df c2totals) = some (sc, sel)
        ∧ sel <+~ candEntries c2df
        ∧ sel.length = (remainingK c2df c2totals).toNat
        ∧ centsSum sel = remainingSum c2df c2totals
        ∧ scoreSum [(⟨0, 10000, 0⟩ : CandEntry)] ≤ sc
        ∧ (∀ t', t' <+~ candEntries c2df →
            t'.length = (remainingK c2df c2totals).toNat →
            centsSum t' = remainingSum c2df c2totals → scoreSum t' ≤ sc)
        ∧ (∀ p ∈ indexedRecs c2df, seedP p = false →
            p.1 ∉ sel.map CandEntry.idx →
            setDir p.2 ("debit") ∈ _reconcile_credits c2df c2totals))
    ∧ best (sortedCands c2df) (remainingK c2df c2totals).toNat
        (remainingSum c2df c2totals)
      = some (0, [(⟨0, 10000, 0⟩ : CandEntry)]) :=
  ⟨by decide, by decide, by decide, by decide, by decide,
    C2_solver_optimal c2df c2totals (by decide) (by decide)
      [(⟨0, 10000, 0⟩ : CandEntry)] (by decide) (by decide) (by decide),
    by decide⟩

/-- Claim C3 (amended): when `residualCount` is positive and no subset
of the non-seed candidates matches the residual count and sum,
reconciliation falls back to marking exactly the seeds as credits —
every non-seed row becomes a debit — and the parse is not failed.
However, contrary to the claim, no warning or flag is surfaced: the
function's only output is the re-classified frame (see
`C3_counterexample`, where an infeasible reconciliation returns a frame
identical to that of a successful exact reconciliation). -/
theorem C3_amended (df : List TxRec) (totals : StatementTotals)
    (hk : 0 < remainingK df totals)
    (hinfeas : ∀ t, t <+~ candEntries df →
      ¬(t.length = (remainingK df totals).toNat
        ∧ centsSum t = remainingSum df totals)) :
    _reconcile_credits df totals = assignDirs df (seedIdx df)
    ∧ (∀ p ∈ indexedRecs df,
        (seedP p = true →
          setDir p.2 ("credit") ∈ _reconcile_credits df totals)
        ∧ (seedP p = false →
          setDir p.2 ("debit") ∈ _reconcile_credits df totals)) := by
  have hperm : sortedCands df ~ candEntries df :=
    List.perm_insertionSort keyGe (candEntries df)
  have hnone : best (sortedCands df) (remainingK df totals).toNat
      (remainingSum df totals) = none := by
    cases hb : best (sortedCands df) (remainingK df totals).toNat
        (remainingSum df totals) with
    | none => rfl
    | some p =>
      obtain ⟨sc, sel⟩ := p
      obtain ⟨hsub, hlen, hsum, _⟩ :=
        best_sound (sortedCands df) (remainingK df totals).toNat
          (remainingSum df totals) sc sel hb
      exact absurd ⟨hlen, hsum⟩
        (hinfeas sel (hsub.subperm.trans hperm.subperm))
  have hout := reconcile_eq_of_best_none df totals hk hnone
  refine ⟨hout, ?_⟩
  intro p hp
  constructor
  · intro hps
    rw [hout]
    unfold assignDirs
    have hmem : p.1 ∈ seedIdx df := (mem_seedIdx_iff df hp).mpr hps
    have : setDir p.2 (if p.1 ∈ seedIdx df then "credit" else "debit")
        = setDir p.2 ("credit") := by rw [if_pos hmem]
    rw [← this]
    exact List.mem_map_of_mem _ hp
  · intro hps
    rw [hout]
    unfold assignDirs
    have hmem : p.1 ∉ seedIdx df := by
      intro hmem
      have := (mem_seedIdx_iff df hp).mp hmem
      rw [hps] at this
      exact absurd this (by simp)
    have : setDir p.2 (if p.1 ∈ seedIdx df then "credit" else "debit")
        = setDir p.2 ("debit") := by rw [if_neg hmem]
    rw [← this]
    exact List.mem_map_of_mem _ hp

def c3df : List TxRec :=
  [mkRec ("PAGO DE NOMINA") 100, mkRec ("B") 50, mkRec ("C") 40]

def c3totalsA : StatementTotals :=
  { total_cargos := 90, count_cargos := 2, total_abonos := 100, count_abonos := 1 }

def c3totalsB : StatementTotals :=
  { total_cargos := 90, count_cargos := 2,
    total_abonos := 19999/100, count_abonos := 2 }

/-- Claim C3 (counterexample to the warning half): on the same frame,
totals A make the seed classification an exact reconciliation (credit
sum 100 = declared 100, count 1 = declared 1), while totals B are
infeasible (residual 9999 cents over candidates 5000 and 4000; the
solver returns no solution and every sublist of the candidate pool
fails the residual target).  Yet `_reconcile_credits` returns the
identical frame in both cases: the infeasibility is not surfaced to the
caller in any way, contradicting the claim that a recoverable warning
distinguishes it from a successful exact reconciliation. -/
theorem C3_counterexample :
    _reconcile_credits c3df c3totalsA = _reconcile_credits c3df c3totalsB
    ∧ amountSum (creditPart (_reconcile_credits c3df c3totalsA))
        = c3totalsA.total_abonos
    ∧ (creditPart (_reconcile_credits c3df c3totalsA)).length
        = c3totalsA.count_abonos
    ∧ 0 < remainingK c3df c3totalsB
    ∧ best (sortedCands c3df) (remainingK c3df c3totalsB).toNat
        (remainingSum c3df c3totalsB) = none
    ∧ ((candEntries c3df).sublists.all
        (fun t => !(decide (t.length = (remainingK c3df c3totalsB).toNat)
          && decide (centsSum t = remainingSum c3df c3totalsB)))) = true := by
  decide

def c3wdf : List TxRec := [mkRec ("PAGO DE NOMINA") 100, mkRec ("B") 50]

def c3wtotals : StatementTotals :=
  { total_cargos := 50, count_cargos := 1,
    total_abonos := 19999/100, count_abonos := 2 }

/-- Claim C3 (witness): the amended theorem applied to a frame with one
seed (100) and one candidate (50) against an infeasible residual of
9999 cents; infeasibility over all sub-multisets of the one-candidate
pool is discharged by enumerating its sublists. -/
theorem C3_witness :
    0 < remainingK c3wdf c3wtotals
    ∧ (_reconcile_credits c3wdf c3wtotals = assignDirs c3wdf (seedIdx c3wdf)
      ∧ (∀ p ∈ indexedRecs c3wdf,
          (seedP p = true →
            setDir p.2 ("credit") ∈ _reconcile_credits c3wdf c3wtotals)
          ∧ (seedP p = false →
            setDir p.2 ("debit") ∈ _reconcile_credits c3wdf c3wtotals))) :=
  ⟨by decide,
    C3_amended c3wdf c3wtotals (by decide)
      (by
        intro t ht hc
        obtain ⟨t', hp, hs⟩ := ht
        have hall : ∀ u ∈ (candEntries c3wdf).sublists,
            ¬(u.length = (remainingK c3wdf c3wtotals).toNat
              ∧ centsSum u = remainingSum c3wdf c3wtotals) := by decide
        apply hall t' (List.mem_sublists.mpr hs)
        constructor
        · rw [hp.length_eq]; exact hc.1
        · unfold centsSum
          rw [(hp.map CandEntry.cents).sum_eq]
          exact hc.2)⟩

/-- Any direction assignment whose credit set covers the seed indices
marks every seed row as a credit. -/
theorem seed_credit_assignDirs (df : List TxRec) (cs : List ℕ)
    (hcs : ∀ i, i ∈ seedIdx df → i ∈ cs) :
    ∀ r ∈ assignDirs df cs,
      _seed_credit r.description = true → r.direction = "credit" := by
  intro r hr hseed
  unfold assignDirs at hr
  obtain ⟨p, hp, hpe⟩ := List.mem_map.mp hr
  have hdesc : r.description = p.2.description := by
    rw [← hpe]; rfl
  have hps : seedP p = true := by
    unfold seedP
    rw [← hdesc]
    exact hseed
  have hmem : p.1 ∈ cs := hcs p.1 ((mem_seedIdx_iff df hp).mpr hps)
  rw [← hpe, setDir_direction, if_pos hmem]

/-- Every seed row of every reconciled frame is a credit, regardless of
the totals or the solver outcome. -/
theorem reconcile_seed_credit (df : List TxRec) (totals : StatementTotals) :
    ∀ r ∈ _reconcile_credits df totals,
      _seed_credit r.description = true → r.direction = "credit" := by
  intro r hr hseed
  by_cases hk : remainingK df totals ≤ 0
  · rw [reconcile_eq_of_k_nonpos df totals hk] at hr
    exact seed_credit_assignDirs df (seedIdx df) (fun i hi => hi) r hr hseed
  · have hk' : 0 < remainingK df totals := lt_of_not_le hk
    cases hb : best (sortedCands df) (remainingK df totals).toNat
        (remainingSum df totals) with
    | some p =>
      obtain ⟨sc, sel⟩ := p
      rw [reconcile_eq_of_best_some df totals hk' hb] at hr
      exact seed_credit_assignDirs df (seedIdx df ++ sel.map CandEntry.idx)
        (fun i hi => List.mem_append_left _ hi) r hr hseed
    | none =>
      rw [reconcile_eq_of_best_none df totals hk' hb] at hr
      exact seed_credit_assignDirs df (seedIdx df) (fun i hi => hi) r hr hseed

/-- A freshly built record's direction is determined by the seed test
on its description. -/
theorem buildRecord_direction (sy ey sm : ℕ) (src : String) (tx : RawTx)
    (r : TxRec) (h : buildRecord sy ey sm src tx = Except.ok r) :
    r.direction = (if _seed_credit r.description then "credit" else "debit") := by
  unfold buildRecord at h
  split at h
  · exact absurd h (by simp)
  · split at h
    · exact absurd h (by simp)
    · injection h with h2
      rw [← h2]

/-- Every record produced by `buildRecords` comes from one transaction
via `buildRecord`. -/
theorem buildRecords_mem (sy ey sm : ℕ) (src : String) :
    ∀ (txs : List RawTx) (rs : List TxRec),
      buildRecords sy ey sm src txs = Except.ok rs →
      ∀ r ∈ rs, ∃ tx, buildRecord sy ey sm src tx = Except.ok r := by
  intro txs
  induction txs with
  | nil =>
    intro rs h r hr
    unfold buildRecords at h
    injection h with h2
    rw [← h2] at hr
    exact absurd hr (by simp)
  | cons tx rest ih =>
    intro rs h r hr
    unfold buildRecords at h
    split at h
    · exact absurd h (by simp)
    · rename_i r1 h1
      split at h
      · exact absurd h (by simp)
      · rename_i rs1 h2
        injection h with h3
        rw [← h3] at hr
        rcases List.mem_cons.mp hr with hre | hrm
        · exact ⟨tx, by rw [← hre] at h1; exact h1⟩
        · exact ih rs1 h2 r hrm

/-- Claim C8: a record whose description contains "PAGO DE NOMINA" or
"SPEI RECIBIDO" (a forced seed credit) has direction "credit" in the
output of `_reconcile_credits` whatever the totals and the solver
outcome, is excluded from the solver's candidate pool, and has
direction "credit" in the final output of `parse_bbva_statement`
whether or not totals are present. -/
theorem C8_seed_precedence :
    (∀ (df : List TxRec) (totals : StatementTotals),
      ∀ r ∈ _reconcile_credits df totals,
        _seed_credit r.description = true → r.direction = "credit")
    ∧ (∀ (df : List TxRec), ∀ p ∈ indexedRecs df, seedP p = true →
        p.1 ∉ (candEntries df).map CandEntry.idx)
    ∧ (∀ (pages_text : List String) (out : List TxRec),
        parse_bbva_statement pages_text = Except.ok out →
        ∀ r ∈ out, _seed_credit r.description = true → r.direction = "credit") := by
  refine ⟨reconcile_seed_credit, ?_, ?_⟩
  · intro df p hp hps hmem
    obtain ⟨e, he, hei⟩ := List.mem_map.mp hmem
    unfold candEntries at he
    obtain ⟨q, hq, hqe⟩ := List.mem_map.mp he
    have hq1 : q.1 = p.1 := by
      rw [← hei, ← hqe]
      rfl
    have hqp : q = p := indexed_inj df (List.mem_of_mem_filter hq) hp hq1
    have hqs := List.of_mem_filter hq
    rw [hqp] at hqs
    simp only [hps] at hqs
    exact absurd hqs (by simp)
  · intro pages out h r hr hseed
    unfold parse_bbva_statement at h
    split at h
    · exact absurd h (by simp)
    · rename_i dstart dend _
      split at h
      · exact absurd h (by simp)
      · rename_i sec _
        split at h
        · exact absurd h (by simp)
        · rename_i records hrec
          split at h
          · exact absurd h (by simp)
          · split at h
            · rename_i t _
              injection h with h2
              rw [← h2] at hr
              exact reconcile_seed_credit _ t r hr hseed
            · injection h with h2
              rw [← h2] at hr
              have hrm : r ∈ records :=
                (List.perm_insertionSort recLe records).subset hr
              obtain ⟨tx, htx⟩ :=
                buildRecords_mem dstart.year dend.year dstart.month
                  (srcTag dstart dend) (assembleLoop sec none []) records
                  hrec r hrm
              have := buildRecord_direction _ _ _ _ tx r htx
              rw [this, if_pos hseed]

instance {e a : Type} [DecidableEq e] [DecidableEq a] : DecidableEq (Except e a) :=
  fun x y =>
    match x, y with
    | Except.error u, Except.error v =>
      decidable_of_iff (u = v)
        ⟨congrArg Except.error, fun h => by injection h⟩
    | Except.error _, Except.ok _ => isFalse (fun h => Except.noConfusion h)
    | Except.ok _, Except.error _ => isFalse (fun h => Except.noConfusion h)
    | Except.ok u, Except.ok v =>
      decidable_of_iff (u = v)
        ⟨congrArg Except.ok, fun h => by injection h⟩

def c8pages : List String :=
  ["Periodo DEL 03/12/2025 AL 02/01/2026\nDetalle de Movimientos Realizados\n03/DIC 04/DIC PAGO DE NOMINA 1,234.56\n05/DIC 05/DIC OXXO GASTO 200.00\nTotal de Movimientos 2"]

def c8rec : TxRec :=
  { date := ⟨2025, 12, 3⟩, liq_date := ⟨2025, 12, 4⟩,
    description := "PAGO DE NOMINA 1,234.56", amount := 30864/25,
    direction := "credit", source := "bbva_pdf_2025-12-03_2026-01-02" }

def c8out : List TxRec :=
  [c8rec,
   { date := ⟨2025, 12, 5⟩, liq_date := ⟨2025, 12, 5⟩,
     description := "OXXO GASTO 200.00", amount := 200,
     direction := "debit", source := "bbva_pdf_2025-12-03_2026-01-02" }]

/-- Claim C8 (witness): the three parts of the theorem applied to
concrete inputs: a seed row kept credit by a reconciliation, a seed row
absent from the candidate pool, and a seed row credit in the output of
a full parse. -/
theorem C8_witness :
    (setDir (mkRec ("PAGO DE NOMINA") 100) ("credit")
        ∈ _reconcile_credits c3df c3totalsA
      ∧ _seed_credit (setDir (mkRec ("PAGO DE NOMINA") 100)
          ("credit")).description = true
      ∧ (setDir (mkRec ("PAGO DE NOMINA") 100) ("credit")).direction = "credit")
    ∧ (((0 : ℕ), mkRec ("PAGO DE NOMINA") 100) ∈ indexedRecs c3df
      ∧ seedP ((0 : ℕ), mkRec ("PAGO DE NOMINA") 100) = true
      ∧ (0 : ℕ) ∉ (candEntries c3df).map CandEntry.idx)
    ∧ (parse_bbva_statement c8pages = Except.ok c8out
      ∧ c8rec ∈ c8out
      ∧ _seed_credit c8rec.description = true
      ∧ c8rec.direction = "credit") :=
  ⟨⟨by decide, by decide,
    C8_seed_precedence.1 c3df c3totalsA
      (setDir (mkRec ("PAGO DE NOMINA") 100) ("credit")) (by decide) (by decide)⟩,
   ⟨by decide, by decide,
    C8_seed_precedence.2.1 c3df ((0 : ℕ), mkRec ("PAGO DE NOMINA") 100)
      (by decide) (by decide)⟩,
   ⟨by decide, by decide, by decide,
    C8_seed_precedence.2.2 c8pages c8out (by decide) c8rec (by decide)
      (by decide)⟩⟩

/-- Splitting a list with no separator occurrences yields one group. -/
theorem splitOnChar_no_sep (sep : Char) :
    ∀ (ys : List Char), (∀ c ∈ ys, c ≠ sep) → splitOnChar sep ys = [ys] := by
  intro ys
  induction ys with
  | nil => intro _; rfl
  | cons c ys' ih =>
    intro h
    unfold splitOnChar
    rw [if_neg (h c (List.mem_cons_self c ys'))]
    rw [ih (fun x hx => h x (List.mem_cons_of_mem c hx))]

/-- Splitting around a single separator yields the two groups
(the behaviour of Python `"dd/mmm".split("/")`). -/
theorem splitOnChar_sep (sep : Char) :
    ∀ (xs ys : List Char), (∀ c ∈ xs, c ≠ sep) → (∀ c ∈ ys, c ≠ sep) →
      splitOnChar sep (xs ++ sep :: ys) = [xs, ys] := by
  intro xs
  induction xs with
  | nil =>
    intro ys _ hys
    rw [List.nil_append]
    unfold splitOnChar
    rw [if_pos rfl, splitOnChar_no_sep sep ys hys]
  | cons c xs' ih =>
    intro ys hxs hys
    unfold splitOnChar
    rw [List.cons_append]
    simp only []
    rw [if_neg (hxs c (List.mem_cons_self c xs'))]
    rw [ih ys (fun x hx => hxs x (List.mem_cons_of_mem c hx)) hys]

/-- Decimal digit characters are regex digits. -/
theorem digitChar_isDigit {n : ℕ} (h : n < 10) :
    (Nat.digitChar n).isDigit = true := by
  interval_cases n <;> decide

/-- Reading back a decimal digit character. -/
theorem digitChar_toNat {n : ℕ} (h : n < 10) :
    (Nat.digitChar n).toNat - 48 = n := by
  interval_cases n <;> decide

/-- Decimal digit characters are not the slash. -/
theorem digitChar_ne_slash {n : ℕ} (h : n < 10) : Nat.digitChar n ≠ '/' := by
  interval_cases n <;> decide

/-- Python `int` reads back a two-digit rendering. -/
theorem parseNatDigits_two {d : ℕ} (h : d < 100) :
    parseNatDigits (two d) = some d := by
  have h1 : d / 10 % 10 < 10 := Nat.mod_lt _ (by norm_num)
  have h2 : d % 10 < 10 := Nat.mod_lt _ (by norm_num)
  unfold parseNatDigits two
  simp only [List.isEmpty_cons, List.all_cons, List.all_nil,
    digitChar_isDigit h1, digitChar_isDigit h2, Bool.and_true, Bool.true_and]
  rw [if_neg (by simp)]
  simp only [if_true]
  unfold natVal
  simp only [List.foldl_cons, List.foldl_nil]
  rw [digitChar_toNat h1, digitChar_toNat h2]
  congr 1
  omega

/-- Claim C6 (amended): for every day numeral and recognized month
abbreviation that form a valid calendar date under the selected year,
`_parse_dd_mmm` resolves "DD/ABBR" to the date whose year is the
period's end year when the resolved month is strictly before the
period's start month and the period's start year otherwise.  (When the
day is invalid for the selected month and year — e.g. "31/FEB" — the
resolver raises instead of assigning any year; see
`C6_counterexample`.) -/
theorem C6_amended (d m sy ey sm : ℕ) (abbr : String)
    (hm : monthsGet (asciiUpper abbr) = some m)
    (hslash : ∀ c ∈ abbr.toList, c ≠ '/')
    (hd : d < 100)
    (hv : ValidDate (if m < sm then ey else sy) m d) :
    _parse_dd_mmm (String.mk (two d ++ '/' :: abbr.toList)) sy ey sm
      = Except.ok ⟨if m < sm then ey else sy, m, d⟩ := by
  obtain ⟨labbr⟩ := abbr
  simp only [String.toList] at hslash
  have hxs : ∀ c ∈ two d, c ≠ '/' := by
    intro c hc
    unfold two at hc
    rcases List.mem_cons.mp hc with h | h
    · rw [h]
      exact digitChar_ne_slash (Nat.mod_lt _ (by norm_num))
    · rcases List.mem_cons.mp h with h' | h'
      · rw [h']
        exact digitChar_ne_slash (Nat.mod_lt _ (by norm_num))
      · exact absurd h' (by simp)
  unfold _parse_dd_mmm
  simp only [String.toList]
  rw [splitOnChar_sep '/' (two d) labbr hxs hslash]
  simp only [hm, parseNatDigits_two hd]
  unfold mkDate
  rw [if_pos hv]

/-- Claim C6 (counterexample): "FEB" is a recognized month abbreviation
and 2 < 12, so the claim demands that "31/FEB" under the period
2025-12-03..2026-01-02 resolve to a date in the end year 2026; instead
`_parse_dd_mmm` raises, because 31 is not a valid February day — the
resolver assigns no year at all for day-invalid tokens. -/
theorem C6_counterexample :
    monthsGet ("FEB") = some 2
    ∧ 2 < 12
    ∧ _parse_dd_mmm ("31/FEB") 2025 2026 12
        = Except.error ("day is out of range for month") := by
  decide

/-- Claim C6 (witness): the spec's two examples: under the period
2025-12-03..2026-01-02, "05/DIC" resolves to 2025-12-05 (month 12 is
not before start month 12: start year) and "02/ENE" resolves to
2026-01-02 (month 1 is before start month 12: end year). -/
theorem C6_witness :
    String.mk (two 5 ++ '/' :: ("DIC").toList) = ("05/DIC")
    ∧ _parse_dd_mmm (String.mk (two 5 ++ '/' :: ("DIC").toList)) 2025 2026 12
        = Except.ok ⟨2025, 12, 5⟩
    ∧ String.mk (two 2 ++ '/' :: ("ENE").toList) = ("02/ENE")
    ∧ _parse_dd_mmm (String.mk (two 2 ++ '/' :: ("ENE").toList)) 2025 2026 12
        = Except.ok ⟨2026, 1, 2⟩ :=
  ⟨by decide,
   by
    have h := C6_amended 5 12 2025 2026 12 ("DIC") (by decide) (by decide)
      (by decide) (by decide)
    simpa using h,
   by decide,
   by
    have h := C6_amended 2 1 2025 2026 12 ("ENE") (by decide) (by decide)
      (by decide) (by decide)
    simpa using h⟩

/-- The canonical rendering of a date as a `dd/mm/yyyy` token, as it
appears in a statement period header. -/
def renderDMY (dt : Date) : List Char :=
  two dt.day ++ '/' :: two dt.month ++ '/' :: four dt.year

/-- The canonical period header fragment `Periodo DEL d1 AL d2`. -/
def periodText (d1 d2 : Date) : List Char :=
  ("Periodo DEL ").toList ++ renderDMY d1 ++ (" AL ").toList ++ renderDMY d2

/-- A literal matches its own prefix and leaves the rest. -/
theorem matchLit_append : ∀ (p rest : List Char), matchLit p (p ++ rest) = some rest := by
  intro p
  induction p with
  | nil => intro rest; rfl
  | cons c p' ih =>
    intro rest
    rw [List.cons_append]
    simp only [matchLit, eq_self_iff_true, if_true]
    exact ih rest

/-- Whitespace consumption across a single space followed by a
non-space character. -/
theorem dropWs1_space {c : Char} (h : isWs c = false) (rest : List Char) :
    dropWs1 (' ' :: c :: rest) = some (c :: rest) := by
  simp only [dropWs1]
  rw [if_pos (by decide : isWs ' ' = true)]
  rw [List.dropWhile_cons]
  rw [h]
  simp

/-- Decimal digit characters are not whitespace. -/
theorem digitChar_not_ws {n : ℕ} (h : n < 10) : isWs (Nat.digitChar n) = false := by
  interval_cases n <;> decide

/-- Months never exceed 31 days. -/
theorem daysInMonth_le_31 (y m : ℕ) : daysInMonth y m ≤ 31 := by
  unfold daysInMonth
  split_ifs <;> omega

/-- Python `int` reads back a four-digit rendering. -/
theorem parseNatDigits_four {y : ℕ} (h : y < 10000) :
    parseNatDigits (four y) = some y := by
  have h1 : y / 1000 % 10 < 10 := Nat.mod_lt _ (by norm_num)
  have h2 : y / 100 % 10 < 10 := Nat.mod_lt _ (by norm_num)
  have h3 : y / 10 % 10 < 10 := Nat.mod_lt _ (by norm_num)
  have h4 : y % 10 < 10 := Nat.mod_lt _ (by norm_num)
  unfold parseNatDigits four
  simp only [List.isEmpty_cons, List.all_cons, List.all_nil,
    digitChar_isDigit h1, digitChar_isDigit h2, digitChar_isDigit h3,
    digitChar_isDigit h4, Bool.and_true, Bool.true_and]
  rw [if_neg (by simp)]
  simp only [if_true]
  unfold natVal
  simp only [List.foldl_cons, List.foldl_nil]
  rw [digitChar_toNat h1, digitChar_toNat h2, digitChar_toNat h3,
    digitChar_toNat h4]
  congr 1
  omega

/-- A rendered date token is consumed exactly by the date-token
recognizer. -/
theorem matchDateTok_render (dt : Date) (rest : List Char)
    (hd : dt.day < 100) (hm : dt.month < 100) (hy : dt.year < 10000) :
    matchDateTok (renderDMY dt ++ rest) = some (renderDMY dt, rest) := by
  have hd1 : dt.day / 10 % 10 < 10 := Nat.mod_lt _ (by norm_num)
  have hd2 : dt.day % 10 < 10 := Nat.mod_lt _ (by norm_num)
  have hm1 : dt.month / 10 % 10 < 10 := Nat.mod_lt _ (by norm_num)
  have hm2 : dt.month % 10 < 10 := Nat.mod_lt _ (by norm_num)
  have hy1 : dt.year / 1000 % 10 < 10 := Nat.mod_lt _ (by norm_num)
  have hy2 : dt.year / 100 % 10 < 10 := Nat.mod_lt _ (by norm_num)
  have hy3 : dt.year / 10 % 10 < 10 := Nat.mod_lt _ (by norm_num)
  have hy4 : dt.year % 10 < 10 := Nat.mod_lt _ (by norm_num)
  unfold renderDMY two four
  simp only [List.cons_append, List.nil_append]
  simp only [matchDateTok]
  rw [if_pos (by
    simp only [digitChar_isDigit hd1, digitChar_isDigit hd2,
      digitChar_isDigit hm1, digitChar_isDigit hm2, digitChar_isDigit hy1,
      digitChar_isDigit hy2, digitChar_isDigit hy3, digitChar_isDigit hy4]
    decide)]

/-- A rendered date token converts back to its date via `strptime`. -/
theorem strptimeDMY_render (dt : Date)
    (hv : ValidDate dt.year dt.month dt.day) :
    strptimeDMY (renderDMY dt) = Except.ok dt := by
  have hd : dt.day < 100 := by
    have h1 := hv.2.2.2.2.2
    have h2 := daysInMonth_le_31 dt.year dt.month
    omega
  have hm : dt.month < 100 := by
    have := hv.2.2.2.1
    omega
  have hy : dt.year < 10000 := by
    have := hv.2.1
    omega
  have e1 : parseNatDigits [Nat.digitChar (dt.day / 10 % 10),
      Nat.digitChar (dt.day % 10)] = some dt.day := parseNatDigits_two hd
  have e2 : parseNatDigits [Nat.digitChar (dt.month / 10 % 10),
      Nat.digitChar (dt.month % 10)] = some dt.month := parseNatDigits_two hm
  have e3 : parseNatDigits [Nat.digitChar (dt.year / 1000 % 10),
      Nat.digitChar (dt.year / 100 % 10), Nat.digitChar (dt.year / 10 % 10),
      Nat.digitChar (dt.year % 10)] = some dt.year := parseNatDigits_four hy
  unfold renderDMY two four
  simp only [List.cons_append, List.nil_append]
  simp only [strptimeDMY, e1, e2, e3]
  unfold mkDate
  rw [if_pos hv]

/-- A leftmost search skips a prefix on which the matcher fails
everywhere. -/
theorem searchOpt_append {α : Type} (f : List Char → Option α) :
    ∀ (pre rest : List Char),
      (∀ n < pre.length, f (List.drop n (pre ++ rest)) = none) →
      searchOpt f (pre ++ rest) = searchOpt f rest := by
  intro pre
  induction pre with
  | nil => intro rest _; rfl
  | cons c pre' ih =>
    intro rest hfail
    have h0 : f (c :: (pre' ++ rest)) = none := by
      have := hfail 0 (by simp)
      simpa using this
    rw [List.cons_append, searchOpt, h0]
    show searchOpt f (pre' ++ rest) = searchOpt f rest
    exact ih rest (fun n hn => by
      have := hfail (n + 1) (by simpa using hn)
      simpa using this)

/-- A leftmost search returns an immediate match. -/
theorem searchOpt_of_match {α : Type} (f : List Char → Option α)
    (cs : List Char) {r : α} (h : f cs = some r) : searchOpt f cs = some r := by
  cases cs with
  | nil => simpa [searchOpt] using h
  | cons c cs' =>
    unfold searchOpt
    rw [h]

/-- A rendered date token starts with a digit, so whitespace stripping
leaves it alone. -/
theorem dropWhile_ws_render (dt : Date) (rest : List Char)
    (h : isWs (Nat.digitChar (dt.day / 10 % 10)) = false) :
    List.dropWhile isWs (renderDMY dt ++ rest) = renderDMY dt ++ rest := by
  unfold renderDMY two
  simp only [List.cons_append, List.dropWhile_cons, h]
  simp

/-- The period matcher succeeds on the canonical period fragment and
captures the two rendered dates. -/
theorem matchPeriodAt_core (d1 d2 : Date) (post : List Char)
    (hv1 : ValidDate d1.year d1.month d1.day)
    (hv2 : ValidDate d2.year d2.month d2.day) :
    matchPeriodAt (periodText d1 d2 ++ post)
      = some (renderDMY d1, renderDMY d2) := by
  have hb1 : d1.day < 100 := by
    have := hv1.2.2.2.2.2
    have := daysInMonth_le_31 d1.year d1.month
    omega
  have hb2 : d1.month < 100 := by have := hv1.2.2.2.1; omega
  have hb3 : d1.year < 10000 := by have := hv1.2.1; omega
  have hb4 : d2.day < 100 := by
    have := hv2.2.2.2.2.2
    have := daysInMonth_le_31 d2.year d2.month
    omega
  have hb5 : d2.month < 100 := by have := hv2.2.2.2.1; omega
  have hb6 : d2.year < 10000 := by have := hv2.2.1; omega
  have hr1 : isWs (Nat.digitChar (d1.day / 10 % 10)) = false :=
    digitChar_not_ws (Nat.mod_lt _ (by norm_num))
  have hr2 : isWs (Nat.digitChar (d2.day / 10 % 10)) = false :=
    digitChar_not_ws (Nat.mod_lt _ (by norm_num))
  have hshow : periodText d1 d2 ++ post
      = 'P' :: 'e' :: 'r' :: 'i' :: 'o' :: 'd' :: 'o' :: ' ' :: 'D' :: 'E' ::
        'L' :: ' ' ::
        (renderDMY d1 ++ (' ' :: 'A' :: 'L' :: ' ' :: (renderDMY d2 ++ post))) := by
    unfold periodText
    simp only [List.append_assoc]
    rfl
  have hws : isWs ' ' = true := by decide
  have hdw1 : List.dropWhile isWs
      (renderDMY d1 ++ (' ' :: 'A' :: 'L' :: ' ' :: (renderDMY d2 ++ post)))
      = renderDMY d1 ++ (' ' :: 'A' :: 'L' :: ' ' :: (renderDMY d2 ++ post)) :=
    dropWhile_ws_render d1 _ hr1
  have hdw2 : List.dropWhile isWs (renderDMY d2 ++ post)
      = renderDMY d2 ++ post :=
    dropWhile_ws_render d2 _ hr2
  have hmt1 := matchDateTok_render d1
    (' ' :: 'A' :: 'L' :: ' ' :: (renderDMY d2 ++ post)) hb1 hb2 hb3
  have hmt2 := matchDateTok_render d2 post hb4 hb5 hb6
  rw [hshow]
  simp only [matchPeriodAt, matchLit, dropWs1, eq_self_iff_true, if_true,
    hws, hdw1, hdw2, hmt1, hmt2]

/-- Claim C5 (amended): for all valid dates d1 ≤ d2, a statement text
containing the anchored period string "Periodo DEL d1 AL d2" — with no
earlier position at which the period pattern matches — yields exactly
the pair (d1, d2) from `_parse_period`.  (The bare string
"DEL d1 AL d2" without the "Periodo" label is NOT recovered; see
`C5_counterexample`.) -/
theorem C5_amended (pre post : List Char) (d1 d2 : Date)
    (hv1 : ValidDate d1.year d1.month d1.day)
    (hv2 : ValidDate d2.year d2.month d2.day)
    (hle : dateLe d1 d2)
    (hpre : ∀ n < pre.length,
      matchPeriodAt (List.drop n (pre ++ (periodText d1 d2 ++ post))) = none) :
    _parse_period (String.mk (pre ++ (periodText d1 d2 ++ post)))
      = Except.ok (d1, d2) := by
  have h1 := searchOpt_append matchPeriodAt pre (periodText d1 d2 ++ post) hpre
  have h2 := searchOpt_of_match matchPeriodAt (periodText d1 d2 ++ post)
    (matchPeriodAt_core d1 d2 post hv1 hv2)
  simp only [_parse_period, String.toList]
  rw [h1, h2]
  simp only [strptimeDMY_render d1 hv1, strptimeDMY_render d2 hv2]

def c5text : String := "texto DEL 01/01/2025 AL 31/01/2025"

/-- Claim C5 (counterexample): a statement text containing the valid
period string "DEL 01/01/2025 AL 31/01/2025" with 2025-01-01 ≤
2025-01-31 — but no "Periodo" label — makes `_parse_period` raise
instead of recovering the pair: the extractor requires the anchored
form `Periodo DEL d1 AL d2`. -/
theorem C5_counterexample :
    containsSub ("DEL 01/01/2025 AL 31/01/2025") c5text = true
    ∧ ValidDate 2025 1 1
    ∧ ValidDate 2025 1 31
    ∧ dateLe ⟨2025, 1, 1⟩ ⟨2025, 1, 31⟩
    ∧ _parse_period c5text
        = Except.error ("No pude encontrar el periodo del estado de cuenta.") := by
  decide

/-- Claim C5 (witness): the amended theorem applied to the period
2025-12-03..2026-01-02 wrapped in leading and trailing text. -/
theorem C5_witness :
    ValidDate 2025 12 3
    ∧ ValidDate 2026 1 2
    ∧ dateLe ⟨2025, 12, 3⟩ ⟨2026, 1, 2⟩
    ∧ _parse_period (String.mk (("Estado de Cuenta ").toList ++
        (periodText ⟨2025, 12, 3⟩ ⟨2026, 1, 2⟩ ++ (" BBVA MEXICO").toList)))
      = Except.ok (⟨2025, 12, 3⟩, ⟨2026, 1, 2⟩) :=
  ⟨by decide, by decide, by decide,
    C5_amended (("Estado de Cuenta ").toList) ((" BBVA MEXICO").toList)
      ⟨2025, 12, 3⟩ ⟨2026, 1, 2⟩ (by decide) (by decide) (by decide)
      (by decide)⟩

/-- Claim C9 (amended): while a record is open, a run of lines
containing no stop line and no start line contributes exactly its
non-noise lines, in order, to the open record's continuation — no such
line is dropped — and at end of input the open record is emitted with
whatever continuation text was collected.  (A non-noise, non-start line
arriving when no record is open — before the first start line — is
silently discarded; see `C9_counterexample`.) -/
theorem C9_amended :
    (∀ (suffix : List String),
      (∀ l ∈ suffix, stopMatch l = false ∧ matchStart l = none) →
      ∀ (rest : List String) (cur : RawTx) (txs : List RawTx),
        assembleLoop (suffix ++ rest) (some cur) txs
          = assembleLoop rest
              (some { cur with
                cont := cur.cont ++ suffix.filter (fun l => !noiseMatch l) })
              txs)
    ∧ (∀ (cur : RawTx) (txs : List RawTx),
        assembleLoop [] (some cur) txs = txs ++ [cur]) := by
  constructor
  · intro suffix
    induction suffix with
    | nil =>
      intro _ rest cur txs
      simp
    | cons l suffix' ih =>
      intro hs rest cur txs
      obtain ⟨hstop, hstart⟩ := hs l (List.mem_cons_self l suffix')
      have hs' : ∀ x ∈ suffix', stopMatch x = false ∧ matchStart x = none :=
        fun x hx => hs x (List.mem_cons_of_mem l hx)
      rw [List.cons_append]
      by_cases hn : noiseMatch l
      · have h1 : assembleLoop (l :: (suffix' ++ rest)) (some cur) txs
            = assembleLoop (suffix' ++ rest) (some cur) txs := by
          rw [assembleLoop]
          rw [hstop]
          simp only [Bool.false_eq_true, if_false]
          rw [if_pos hn]
        rw [h1, ih hs' rest cur txs]
        have h2 : List.filter (fun l => !noiseMatch l) (l :: suffix')
            = List.filter (fun l => !noiseMatch l) suffix' := by
          rw [List.filter_cons_of_neg (by simp [hn])]
        rw [h2]
      · have h1 : assembleLoop (l :: (suffix' ++ rest)) (some cur) txs
            = assembleLoop (suffix' ++ rest)
                (some { cur with cont := cur.cont ++ [l] }) txs := by
          rw [assembleLoop]
          rw [hstop]
          simp only [Bool.false_eq_true, if_false]
          rw [if_neg hn, hstart]
        rw [h1, ih hs' rest _ txs]
        have h2 : List.filter (fun l => !noiseMatch l) (l :: suffix')
            = l :: List.filter (fun l => !noiseMatch l) suffix' := by
          rw [List.filter_cons_of_pos (by simp [hn])]
        rw [h2]
        simp
  · intro cur txs
    rfl

/-- Claim C9 (counterexample): the line "JUNK LINE" between the anchor
and the stop line is neither a stop, noise, nor start line, yet the
assembler drops it silently when it precedes the first start line: the
assembled output consists only of the later record, with empty
continuation. -/
theorem C9_counterexample :
    stopMatch ("JUNK LINE") = false
    ∧ noiseMatch ("JUNK LINE") = false
    ∧ matchStart ("JUNK LINE") = none
    ∧ assembleLoop [("JUNK LINE"), ("03/DIC 04/DIC PAGO X 1.00")] none []
        = [{ op_raw := "03/DIC", liq_raw := "04/DIC",
             line1 := "PAGO X 1.00", cont := [] }] := by
  decide

/-- The open record used by the C9 witness. -/
def c9tx0 : RawTx :=
  { op_raw := "03/DIC", liq_raw := "04/DIC", line1 := "PAGO X", cont := [] }

/-- The line run used by the C9 witness: two continuations around one
noise line. -/
def c9lines : List String :=
  [("continuacion uno"), ("PAGINA 2"), ("continuacion dos")]

/-- The closed record used by the C9 witness. -/
def c9tx1 : RawTx :=
  { op_raw := "03/DIC", liq_raw := "04/DIC", line1 := "PAGO X",
    cont := [("continuacion uno"), ("continuacion dos")] }

/-- Claim C9 (witness): a run of two continuation lines and one noise
line before the end of input contributes exactly the two continuation
lines to the open record, and the trailing record is emitted. -/
theorem C9_witness :
    (∀ l ∈ c9lines, stopMatch l = false ∧ matchStart l = none)
    ∧ assembleLoop (c9lines ++ []) (some c9tx0) []
      = assembleLoop []
          (some { c9tx0 with
            cont := c9tx0.cont ++ c9lines.filter (fun l => !noiseMatch l) }) []
    ∧ assembleLoop [] (some c9tx1) [] = [c9tx1] :=
  ⟨by decide,
   C9_amended.1 c9lines (by decide) [] c9tx0 [],
   C9_amended.2 c9tx1 []⟩

/-- Claim C7 (amended): when the statement lacks declared totals but
period and section anchor are found and at least one record is
assembled, the parse succeeds, reconciliation is skipped, the result is
a permutation of the assembled records (no record count loss), and
every record's direction is "credit" exactly for forced seeds and
"debit" otherwise.  (With zero assembled records the parse raises even
though totals are absent; see `C7_counterexample` and claim C10.) -/
theorem C7_amended (pages : List String) (dstart dend : Date)
    (sec : List String) (records : List TxRec)
    (hper : _parse_period (String.intercalate ("\n") pages)
      = Except.ok (dstart, dend))
    (hanchor : afterAnchor (stmtLines pages) = some sec)
    (htot : _parse_totals (String.intercalate ("\n") pages) = none)
    (hrec : buildRecords dstart.year dend.year dstart.month
      (srcTag dstart dend) (assembleLoop sec none []) = Except.ok records)
    (hne : records ≠ []) :
    parse_bbva_statement pages = Except.ok (List.insertionSort recLe records)
    ∧ List.insertionSort recLe records ~ records
    ∧ ∀ r ∈ List.insertionSort recLe records,
        r.direction = (if _seed_credit r.description then "credit" else "debit") := by
  have hne' : records.isEmpty = false := by
    cases records with
    | nil => exact absurd rfl hne
    | cons a l => rfl
  refine ⟨?_, List.perm_insertionSort recLe records, ?_⟩
  · simp only [parse_bbva_statement, hper, hanchor, hrec, htot, hne',
      Bool.false_eq_true, if_false]
  · intro r hr
    have hrm : r ∈ records := (List.perm_insertionSort recLe records).subset hr
    obtain ⟨tx, htx⟩ := buildRecords_mem dstart.year dend.year dstart.month
      (srcTag dstart dend) (assembleLoop sec none []) records hrec r hrm
    exact buildRecord_direction _ _ _ _ tx r htx

def c7pages : List String :=
  ["Periodo DEL 03/12/2025 AL 02/01/2026\nDetalle de Movimientos Realizados\nTotal de Movimientos 0"]

/-- Claim C7 (counterexample): a statement whose text lacks the
declared totals, with period and anchor present but no transaction
rows, makes the parse raise (the empty-frame sort) — so absence of
totals does not by itself guarantee that the parse succeeds. -/
theorem C7_counterexample :
    _parse_totals (String.intercalate ("\n") c7pages) = none
    ∧ parse_bbva_statement c7pages = Except.error ("KeyError: date") := by
  decide

def c7wpages : List String :=
  ["Periodo DEL 03/12/2025 AL 02/01/2026\nDetalle de Movimientos Realizados\n03/DIC 04/DIC PAGO X 1,234.56\n05/DIC 05/DIC SPEI RECIBIDO 100.00\nTotal de Movimientos 2"]

def c7wrecords : List TxRec :=
  [{ date := ⟨2025, 12, 3⟩, liq_date := ⟨2025, 12, 4⟩,
     description := "PAGO X 1,234.56", amount := 30864/25,
     direction := "debit", source := "bbva_pdf_2025-12-03_2026-01-02" },
   { date := ⟨2025, 12, 5⟩, liq_date := ⟨2025, 12, 5⟩,
     description := "SPEI RECIBIDO 100.00", amount := 100,
     direction := "credit", source := "bbva_pdf_2025-12-03_2026-01-02" }]

/-- Claim C7 (witness): the amended theorem applied to a statement with
two transaction rows, one a forced seed, and no declared totals. -/
theorem C7_witness :
    _parse_period (String.intercalate ("\n") c7wpages)
        = Except.ok (⟨2025, 12, 3⟩, ⟨2026, 1, 2⟩)
    ∧ _parse_totals (String.intercalate ("\n") c7wpages) = none
    ∧ (parse_bbva_statement c7wpages
        = Except.ok (List.insertionSort recLe c7wrecords)
      ∧ List.insertionSort recLe c7wrecords ~ c7wrecords
      ∧ ∀ r ∈ List.insertionSort recLe c7wrecords,
          r.direction
            = (if _seed_credit r.description then "credit" else "debit")) :=
  ⟨by decide, by decide,
   C7_amended c7wpages ⟨2025, 12, 3⟩ ⟨2026, 1, 2⟩
     ((stmtLines c7wpages).drop 2) c7wrecords (by decide) (by decide)
     (by decide) (by decide) (by decide)⟩

/-- Claim C10: when the period and the detail-section anchor are both
found but no record is assembled before the stop line, the parse does
not return an empty record sequence — it raises: the model's error is
the pandas `KeyError` from sorting an empty frame on the absent
`date`/`amount` columns. -/
theorem C10_empty_raises (pages : List String) (dstart dend : Date)
    (sec : List String)
    (hper : _parse_period (String.intercalate ("\n") pages)
      = Except.ok (dstart, dend))
    (hanchor : afterAnchor (stmtLines pages) = some sec)
    (hempty : assembleLoop sec none [] = []) :
    parse_bbva_statement pages = Except.error ("KeyError: date")
    ∧ ∀ out, parse_bbva_statement pages ≠ Except.ok out := by
  have h1 : parse_bbva_statement pages = Except.error ("KeyError: date") := by
    have hrec : buildRecords dstart.year dend.year dstart.month
        (srcTag dstart dend) (assembleLoop sec none [])
        = Except.ok ([] : List TxRec) := by
      rw [hempty]
      rfl
    simp only [parse_bbva_statement, hper, hanchor, hrec, List.isEmpty_nil,
      if_true]
  refine ⟨h1, ?_⟩
  intro out hout
  rw [h1] at hout
  exact Except.noConfusion hout

def c10pages : List String :=
  ["Periodo DEL 01/02/2025 AL 28/02/2025\nDetalle de Movimientos Realizados\nFECHA SALDO\nTotal de Movimientos 0\n03/FEB 03/FEB PAGO X 1.00"]

/-- Claim C10 (witness): a statement with period and anchor but only a
noise line before the stop line assembles zero records, and the parse
raises instead of returning an empty sequence (the start line after the
stop line is never reached). -/
theorem C10_witness :
    _parse_period (String.intercalate ("\n") c10pages)
        = Except.ok (⟨2025, 2, 1⟩, ⟨2025, 2, 28⟩)
    ∧ assembleLoop ((stmtLines c10pages).drop 2) none [] = []
    ∧ (parse_bbva_statement c10pages = Except.error ("KeyError: date")
      ∧ ∀ out, parse_bbva_statement c10pages ≠ Except.ok out) :=
  ⟨by decide, by decide,
   C10_empty_raises c10pages ⟨2025, 2, 1⟩ ⟨2025, 2, 28⟩
     ((stmtLines c10pages).drop 2) (by decide) (by decide) (by decide)⟩
